import Mathlib

/-!
Verification development for the car-carrier routing optimizer
(backend/solver): shallow embedding, in Lean 4, of the numeric scaling,
city-name normalization, solver callbacks, constraint assembly and the
greedy decomposition heuristic, together with theorems settling the
frozen specification claims.

Conventions used throughout:
* Python `int` values are embedded as `ℤ`, Python `float` values as `ℚ`
  (exact decimals; the claims under test concern decimal inputs).
* Python strings are embedded as lists of Unicode code points
  (`PyStr := List ℕ`); `None`-able values as `Option`.
* Functions that the solver library (OR-Tools), the database or the
  geocoder provide are parameters of the embedded definitions
  (e.g. `Manager.indexToNode`, `coords`, `hav`).
-/

/-! ## Python numeric primitives -/

/-- Python `int(x)` applied to a real value: truncation toward zero. -/
def pyTruncInt (q : ℚ) : ℤ := if 0 ≤ q then ⌊q⌋ else ⌈q⌉

/-- Python 3 `round(x)` (to 0 digits): round half to even (banker's
rounding), returning an integer. -/
def pyRoundHalfEven (q : ℚ) : ℤ :=
  let f : ℤ := ⌊q⌋
  let r : ℚ := q - f
  if r < 1/2 then f
  else if 1/2 < r then f + 1
  else if Even f then f else f + 1

/-- Scaled integer CEU capacity as computed by the greedy subset selection
(`subset_selection.py`, `cap = int(float(t.get("ceu_max", 0)) * 10)`) and by
`_get_ceu_capacities` (`run_optimizer.py`): truncation of `ceu_max * 10`. -/
def subsetSelectionCeuCap (ceuMax : ℚ) : ℤ := pyTruncInt (ceuMax * 10)

/-- Scaled integer CEU capacity as computed when attaching the CEU routing
dimension (`routing.py`, `int(round(float(t["ceu_max"]) * 10))`): Python
`round` (half-to-even) of `ceu_max * 10`. -/
def ceuDimensionCeuCap (ceuMax : ℚ) : ℤ := pyRoundHalfEven (ceuMax * 10)

/-! ## Python strings as code-point lists -/

/-- Python strings, embedded as lists of Unicode code points. -/
abbrev PyStr := List ℕ

/-- Whitespace code points stripped by Python `str.strip()` (the Unicode
whitespace set; the members beyond ASCII are listed for fidelity, the
claims do not depend on the exotic ones). -/
def pyIsSpace (c : ℕ) : Bool :=
  c = 32 ∨ c = 9 ∨ c = 10 ∨ c = 11 ∨ c = 12 ∨ c = 13 ∨
  c = 28 ∨ c = 29 ∨ c = 30 ∨ c = 31 ∨ c = 133 ∨ c = 160 ∨
  c = 0x1680 ∨ (0x2000 ≤ c ∧ c ≤ 0x200A) ∨ c = 0x2028 ∨ c = 0x2029 ∨
  c = 0x202F ∨ c = 0x205F ∨ c = 0x3000

/-- Python `str.strip()`: drop leading and trailing whitespace. -/
def pyStrip (s : PyStr) : PyStr :=
  ((s.dropWhile pyIsSpace).reverse.dropWhile pyIsSpace).reverse

/-- Python `str.upper()` restricted to ASCII letters; in `norm` it is only
ever applied to text already reduced to ASCII, where this is exact. -/
def upperCp (c : ℕ) : ℕ := if 97 ≤ c ∧ c ≤ 122 then c - 32 else c

/-- Python `str.lower()` restricted to ASCII letters (used on category
names already compared against ASCII needles). -/
def lowerCp (c : ℕ) : ℕ := if 65 ≤ c ∧ c ≤ 90 then c + 32 else c

/-- Model of `unicodedata.normalize("NFKD", ·)` at the level of single
code points, for the character fragment the repository manipulates:
ASCII code points and code points without any decomposition map to
themselves, and the Latin-1 accented letters used in Portuguese city
names decompose into base letter plus combining mark. `unicodedata` is
the Python standard library, external to the repository, so this table
is a model of its documented behaviour on that fragment. -/
def nfkdCp (c : ℕ) : List ℕ :=
  if c < 128 then [c]
  else if c = 0xC0 then [65, 0x300]   -- À
  else if c = 0xC1 then [65, 0x301]   -- Á
  else if c = 0xC2 then [65, 0x302]   -- Â
  else if c = 0xC3 then [65, 0x303]   -- Ã
  else if c = 0xC7 then [67, 0x327]   -- Ç
  else if c = 0xC9 then [69, 0x301]   -- É
  else if c = 0xCA then [69, 0x302]   -- Ê
  else if c = 0xCD then [73, 0x301]   -- Í
  else if c = 0xD3 then [79, 0x301]   -- Ó
  else if c = 0xD4 then [79, 0x302]   -- Ô
  else if c = 0xD5 then [79, 0x303]   -- Õ
  else if c = 0xDA then [85, 0x301]   -- Ú
  else if c = 0xE0 then [97, 0x300]   -- à
  else if c = 0xE1 then [97, 0x301]   -- á
  else if c = 0xE2 then [97, 0x302]   -- â
  else if c = 0xE3 then [97, 0x303]   -- ã
  else if c = 0xE7 then [99, 0x327]   -- ç
  else if c = 0xE9 then [101, 0x301]  -- é
  else if c = 0xEA then [101, 0x302]  -- ê
  else if c = 0xED then [105, 0x301]  -- í
  else if c = 0xF3 then [111, 0x301]  -- ó
  else if c = 0xF4 then [111, 0x302]  -- ô
  else if c = 0xF5 then [111, 0x303]  -- õ
  else if c = 0xFA then [117, 0x301]  -- ú
  else [c]

/-- Python `str.encode("ASCII", "ignore").decode()`: keep only ASCII code
points. -/
def asciiIgnore (s : PyStr) : PyStr := s.filter (fun c => c < 128)

/-- Python single-character `str.replace(a, b)` as a code-point map. -/
def replaceCp (a b : ℕ) (s : PyStr) : PyStr :=
  s.map (fun c => if c = a then b else c)

/-- The chain of `.replace` calls at the end of `norm` / `_norm`
(`"Á"→"A"`, `"Ã"→"A"`, `"É"→"E"`, `"Í"→"I"`, `"Ó"→"O"`, `"Ú"→"U"`,
`"Ç"→"C"`); the needles are the non-ASCII Latin-1 uppercase letters. -/
def accentReplacements (s : PyStr) : PyStr :=
  replaceCp 0xC7 67 (replaceCp 0xDA 85 (replaceCp 0xD3 79
    (replaceCp 0xCD 73 (replaceCp 0xC9 69
      (replaceCp 0xC3 65 (replaceCp 0xC1 65 s))))))

/-- Code points of the sentinel string `"DESCONHECIDA"`. -/
def desconhecida : PyStr := [68, 69, 83, 67, 79, 78, 72, 69, 67, 73, 68, 65]

/-- Normalization core shared by `utils.norm` and `distance._norm`, on a
value that is a string: if the stripped text is empty return the sentinel,
otherwise NFKD-decompose, drop non-ASCII, uppercase, strip, and apply the
(redundant) accent replacements. -/
def normCore (s : PyStr) : PyStr :=
  if pyStrip s = [] then desconhecida
  else accentReplacements (pyStrip ((asciiIgnore (s.flatMap nfkdCp)).map upperCp))

/-- City-name normalization `norm` (`utils.py`) / `_norm` (`distance.py`):
a non-string input (e.g. `None`, embedded as `none`) maps to the sentinel,
otherwise `normCore` runs. -/
def pyNorm (x : Option PyStr) : PyStr :=
  match x with
  | none => desconhecida
  | some s => normCore s

/-! ## Solver index manager and distance callbacks -/

/-- Model of the OR-Tools `RoutingIndexManager` as the embedding sees it:
the number of solver indices (`GetNumberOfIndices()`, equal to `Size()`),
the index-to-node map (`IndexToNode`, `none` modelling an index the
manager rejects with an exception) and the node-to-index map
(`NodeToIndex`, returning `-1` for a node without an index, as the
library does). -/
structure Manager where
  numIndices : ℕ
  indexToNode : ℤ → Option ℕ
  nodeToIndex : ℕ → ℤ

/-- Sentinel penalty `DEFAULT_PENALTY` of `routing.py`. -/
def routingDefaultPenalty : ℤ := 99999

/-- Sentinel penalty `DEFAULT_PENALTY` of `optimizer/setup_model.py`. -/
def setupDefaultPenalty : ℤ := 999999

/-- Embedding of `safe_dist_lookup` (`routing.py`): negative indices give
the penalty; indices at or above the manager's index count give `0`
(the code comments this branch `start/end → 0 km`); a rejected
`IndexToNode` (the caught exception) and nodes beyond the matrix give the
penalty; an in-range but ragged row access (an `IndexError`, also caught)
gives the penalty; otherwise the matrix entry. -/
def safeDistLookup (mat : List (List ℤ)) (m : Manager) (i j : ℤ) : ℤ :=
  if i < 0 ∨ j < 0 then routingDefaultPenalty
  else if (m.numIndices : ℤ) ≤ i ∨ (m.numIndices : ℤ) ≤ j then 0
  else
    match m.indexToNode i, m.indexToNode j with
    | some a, some b =>
        if mat.length ≤ a ∨ mat.length ≤ b then routingDefaultPenalty
        else
          match (mat.get? a).bind (fun row => row.get? b) with
          | some v => v
          | none => routingDefaultPenalty
    | _, _ => routingDefaultPenalty

/-- Embedding of the transit-cost callback `cost_cb` registered by
`set_cost_callback` (`optimizer/setup_model.py`): indices outside
`[0, manager.Size())`, an `IndexToNode` failure, or nodes outside the
(possibly ragged) matrix all yield the large sentinel; otherwise the
matrix entry (always an `int` in this typed embedding, so the
`isinstance` guard never fires). -/
def costCb (mat : List (List ℤ)) (m : Manager) (i j : ℤ) : ℤ :=
  if ¬(0 ≤ i ∧ i < (m.numIndices : ℤ)) ∨ ¬(0 ≤ j ∧ j < (m.numIndices : ℤ)) then
    setupDefaultPenalty
  else
    match m.indexToNode i, m.indexToNode j with
    | some fromNode, some toNode =>
        if ¬(fromNode < mat.length) then setupDefaultPenalty
        else
          match mat.get? fromNode with
          | none => setupDefaultPenalty
          | some row => if ¬(toNode < row.length) then setupDefaultPenalty
                        else match row.get? toNode with
                             | some v => v
                             | none => setupDefaultPenalty
    | _, _ => setupDefaultPenalty

/-! ## Services and demand callbacks -/

/-- One row of the prepared service DataFrame, restricted to the columns
the verified code paths read.  `ceu_int` and the description/category
columns are `Option`s because pandas cells can be NaN (`pd.notna`
guards in the source). -/
structure Row where
  id : ℕ
  registry : ℕ
  service_reg : ℕ
  ceu_int : Option ℤ
  scheduled_base : PyStr
  vehicle_category_name : Option PyStr
  force_return : Bool
  load_city_description : Option PyStr
  unload_city_description : Option PyStr
deriving DecidableEq, Repr, Inhabited

/-- Capacity kinds of `create_demand_callbacks`. -/
inductive CapKind where
  | ceu | lig | fur | rod
deriving DecidableEq, Repr

/-- Membership of a contiguous subsequence, as Python's `needle in hay`
on strings: `isPrefixAt needle hay` holds when `needle` starts `hay`. -/
def isPrefixAt : PyStr → PyStr → Bool
  | [], _ => true
  | _ :: _, [] => false
  | a :: as, b :: bs => a = b && isPrefixAt as bs

/-- Python `needle in hay` for strings: contiguous substring test. -/
def containsSeq (needle : PyStr) : PyStr → Bool
  | [] => isPrefixAt needle []
  | c :: rest => isPrefixAt needle (c :: rest) || containsSeq needle rest

/-- Demand-vector entry of a service row for one capacity kind, exactly
as the pickup branch of the callback in `create_demand_callbacks`
computes it: `ceu` is the (NaN-guarded) `ceu_int`; `lig`/`fur`/`rod` are
0/1 indicators from the lower-cased `vehicle_category_name`. -/
def serviceDemand (k : CapKind) (row : Row) : ℤ :=
  let cat : PyStr := ((row.vehicle_category_name).getD []).map lowerCp
  match k with
  | .ceu => row.ceu_int.getD 0
  | .lig => if containsSeq [109, 111, 116, 111] cat then 0 else 1          -- "moto"
  | .fur => if containsSeq [102, 117, 114, 103] cat then 1 else 0          -- "furg"
  | .rod => if containsSeq [114, 111, 100, 97, 100, 111] cat then 1 else 0 -- "rodado"

/-- Embedding of the demand callback built by `create_demand_callbacks`
(`routing.py`) for one capacity kind: the inner `demand(index)` closure,
transcribed branch by branch (the `df.get?` fallback models the
in-source-unreachable out-of-range row access, guarded just above it). -/
def pyDemand (df : List Row) (m : Manager) (depotIndices : List ℤ) (k : CapKind)
    (index : ℤ) : ℤ :=
  let n : ℤ := df.length
  if index < 0 ∨ (m.numIndices : ℤ) ≤ index then 0
  else
    match m.indexToNode index with
    | none => 0
    | some node =>
      if (node : ℤ) ∈ depotIndices then 0
      else
        let pickup : Bool := (node : ℤ) < n
        let base : ℤ := if pickup then (node : ℤ) else (node : ℤ) - n
        if base < 0 ∨ n ≤ base then 0
        else
          match df.get? base.toNat with
          | none => 0
          | some row =>
            let cat : PyStr := ((row.vehicle_category_name).getD []).map lowerCp
            let ceuVal : ℤ := if row.ceu_int.isSome ∧ pickup then row.ceu_int.getD 0 else 0
            match k with
            | .ceu => ceuVal
            | .lig => if ¬pickup then 0
                      else if containsSeq [109, 111, 116, 111] cat then 0 else 1
            | .fur => if ¬pickup then 0
                      else if containsSeq [102, 117, 114, 103] cat then 1 else 0
            | .rod => if ¬pickup then 0
                      else if containsSeq [114, 111, 100, 97, 100, 111] cat then 1 else 0

/-- Reference demand function, following the specification's words: zero
at depot nodes, the service's scaled demand at its pickup node, zero at
its delivery node, and zero for every node index outside the current
batch's service range, including negative or out-of-manager-range
indices. -/
def refDemandSpec (df : List Row) (m : Manager) (depotIndices : List ℤ) (k : CapKind)
    (index : ℤ) : ℤ :=
  let n : ℤ := df.length
  if index < 0 ∨ (m.numIndices : ℤ) ≤ index then 0
  else
    match m.indexToNode index with
    | none => 0
    | some node =>
      if (node : ℤ) ∈ depotIndices then 0
      else if (node : ℤ) < n then
        match df.get? node with
        | none => 0
        | some row => serviceDemand k row
      else if (node : ℤ) < 2 * n then 0
      else 0

/-! ## Trailers -/

/-- One active trailer record, restricted to the keys the verified code
paths read (`prepare_input` guarantees `base_city` and a numeric
`ceu_max`; the per-class maxima can be `NULL`, hence `Option`). -/
structure Trailer where
  id : ℕ
  base_city : PyStr
  ceu_max : ℚ
  ligeiro_max : Option ℤ
  furgo_max : Option ℤ
  rodado_max : Option ℤ
deriving DecidableEq, Repr, Inhabited

/-! ## Constraint assembly

The OR-Tools `RoutingModel` is modelled as a `Model` value accumulating
exactly what the Python code registers on it: capacity dimensions, the
distance dimension with span cost and per-vehicle cap, pickup-delivery
pair declarations, `solver().Add(...)` constraints, disjunctions, and the
dynamically attached `_disj_nodes` attribute. -/

/-- Constraints posted through `routing.solver().Add(...)`. -/
inductive Cstr where
  /-- `VehicleVar(p) == VehicleVar(d)`. -/
  | sameVehicle (p d : ℤ)
  /-- `dim.CumulVar(p) <= dim.CumulVar(d)` for the named dimension. -/
  | cumulLe (dim : String) (p d : ℤ)
  /-- `IsEqualCstVar(VehicleVar(drop), v) <= IsEqualCstVar(NextVar(drop), endV)`. -/
  | forceReturnImp (drop v endV : ℤ)
deriving DecidableEq, Repr

/-- Solution values the solve primitive returns: per solver index, the
assigned vehicle, the successor index, and the cumulative value of each
named dimension. -/
structure Assignment where
  vehicle : ℤ → ℤ
  next : ℤ → ℤ
  cumul : String → ℤ → ℤ

/-- Satisfaction of one posted constraint by a solution. -/
def satC (A : Assignment) : Cstr → Prop
  | .sameVehicle p d => A.vehicle p = A.vehicle d
  | .cumulLe dim p d => A.cumul dim p ≤ A.cumul dim d
  | .forceReturnImp drop v endV => A.vehicle drop = v → A.next drop = endV

/-- Unary capacity dimension registered through
`AddDimensionWithVehicleCapacity`. -/
structure DimSpec where
  name : String
  demand : ℤ → ℤ
  slack : ℤ
  caps : List ℤ
  startCumulZero : Bool

/-- Arc dimension registered through `AddDimension` (the `DIST`
dimension). -/
structure ArcDimSpec where
  name : String
  transit : ℤ → ℤ → ℤ
  slack : ℤ
  cap : ℤ
  startCumulZero : Bool

/-- Everything the constraint-assembly code registers on the routing
model. -/
structure Model where
  dims : List DimSpec
  arcDims : List ArcDimSpec
  spanCostCoeff : List (String × ℤ)
  endCumulMax : List (String × ℤ)
  pairs : List (ℤ × ℤ)
  constraints : List Cstr
  disjunctions : List (List ℤ × ℤ)
  disjNodesAttr : Option (List ℤ)

/-- Freshly built routing model: nothing registered, and no `_disj_nodes`
attribute attached. -/
def emptyModel : Model :=
  { dims := [], arcDims := [], spanCostCoeff := [], endCumulMax := [],
    pairs := [], constraints := [], disjunctions := [], disjNodesAttr := none }

/-- Pair declarations (`AddPickupAndDelivery(p, d)`) made by
`add_pickup_delivery_pairs` (`optimizer/constraints.py`): for service `i`
of `n`, pickup node `i` and delivery node `i + n`, skipped when either
solver index is negative. -/
def pickupPairDecls (n : ℕ) (m : Manager) : List (ℤ × ℤ) :=
  (List.range n).flatMap fun i =>
    let p := m.nodeToIndex i
    let d := m.nodeToIndex (i + n)
    if p < 0 ∨ d < 0 then [] else [(p, d)]

/-- Constraints posted by `add_pickup_delivery_pairs`: same vehicle for
pickup and delivery, and `DIST` cumul of the pickup at most that of the
delivery, for every service whose two solver indices exist. -/
def pickupPairCstrs (n : ℕ) (m : Manager) : List Cstr :=
  (List.range n).flatMap fun i =>
    let p := m.nodeToIndex i
    let d := m.nodeToIndex (i + n)
    if p < 0 ∨ d < 0 then []
    else [.sameVehicle p d, .cumulLe "DIST" p d]

/-- The transformation `add_pickup_delivery_pairs` performs on the model
(the `DIST` dimension it reads through `GetDimensionOrDie` is referenced
by name in the posted constraints). -/
def addPickupDeliveryPairsM (mdl : Model) (m : Manager) (df : List Row) : Model :=
  { mdl with pairs := mdl.pairs ++ pickupPairDecls df.length m,
             constraints := mdl.constraints ++ pickupPairCstrs df.length m }

/-- Constraints posted by `add_force_return_constraints`
(`location_rules.py`): for each service `i` with `force_return` set and an
existing delivery index `drop`, and each vehicle `v` whose end index is
contained in the domain of `NextVar(drop)`, the boolean implication
`vehicle(drop) = v → next(drop) = End(v)`. -/
def forceReturnCstrs (df : List Row) (nSrv : ℕ) (m : Manager) (nVehicles : ℕ)
    (endOf : ℕ → ℤ) (domainContains : ℤ → ℤ → Bool) : List Cstr :=
  (List.range nSrv).flatMap fun i =>
    if (((df.get? i).map Row.force_return).getD false) then
      let drop := m.nodeToIndex (i + nSrv)
      if drop < 0 then []
      else (List.range nVehicles).flatMap fun v =>
        if domainContains drop (endOf v) then [.forceReturnImp drop v (endOf v)]
        else []
    else []

/-- The transformation `add_force_return_constraints` performs on the
model. -/
def addForceReturnConstraintsM (mdl : Model) (m : Manager) (df : List Row) (nSrv : ℕ)
    (nVehicles : ℕ) (endOf : ℕ → ℤ) (domainContains : ℤ → ℤ → Bool) : Model :=
  { mdl with constraints :=
      mdl.constraints ++ forceReturnCstrs df nSrv m nVehicles endOf domainContains }

/-- Loop body of `interno_penalties` (`callbacks/interno_penalty.py`):
for a listed service whose two indices exist and whose nodes pass the
`AssignmentOrNull` guard, the pair is added as one disjunction with the
given weight. -/
def internoStep (m : Manager) (nSrv : ℕ) (weight : ℤ) (assignmentOrNull : ℤ → Bool)
    (acc : Model) (srvId : ℕ) : Model :=
  let p := m.nodeToIndex srvId
  let d := m.nodeToIndex (srvId + nSrv)
  if p < 0 ∨ d < 0 then acc
  else if assignmentOrNull p ∨ assignmentOrNull d then acc
  else { acc with disjunctions := acc.disjunctions ++ [([p, d], weight)] }

/-- Embedding of `interno_penalties`: the `_disj_nodes` set is attached
to the routing object when absent (and, as in the source, never updated
afterwards), then the loop body runs over `pickup_ids`. -/
def internoPenaltiesM (mdl : Model) (m : Manager) (pickupIds : List ℕ) (nSrv : ℕ)
    (weight : ℤ) (assignmentOrNull : ℤ → Bool) : Model :=
  let mdl0 := if mdl.disjNodesAttr = none then { mdl with disjNodesAttr := some [] } else mdl
  pickupIds.foldl (internoStep m nSrv weight assignmentOrNull) mdl0

/-- Python `TypeError`, here the one raised by indexing a tuple with a
string. -/
inductive PyError where
  | typeError
deriving DecidableEq, Repr

/-- The value `create_demand_callbacks` (`routing.py`) returns: the pair
`(cb_indices, demand_fns)` — registered callback ids keyed by kind, and
the demand closures keyed by kind. -/
abbrev DemandCallbacksPair :=
  List (String × ℤ) × List (String × (ℤ → ℤ))

/-- Embedding of `create_demand_callbacks`: one closure per kind is built
and registered, and the PAIR `(cb_indices, demand_fns)` is returned.  The
OR-Tools registration ids are modelled by registration order (0..3);
their values are never consulted downstream. -/
def createDemandCallbacks (df : List Row) (m : Manager) (depotIndices : List ℤ) :
    DemandCallbacksPair :=
  ([("ceu", 0), ("lig", 1), ("fur", 2), ("rod", 3)],
   [("ceu", pyDemand df m depotIndices .ceu),
    ("lig", pyDemand df m depotIndices .lig),
    ("fur", pyDemand df m depotIndices .fur),
    ("rod", pyDemand df m depotIndices .rod)])

/-- `callbacks[key]` when `callbacks` is the tuple of
`create_demand_callbacks` rather than the `Dict[str, int]` the signature
of `add_dimensions_and_constraints` declares: subscripting a Python tuple
with a string raises `TypeError` unconditionally. -/
def tupleGetStr (_cbs : DemandCallbacksPair) (_key : String) :
    Except PyError (ℤ → ℤ) :=
  .error .typeError

/-- The dimension loop of `add_dimensions_and_constraints` over the four
`(name, caps, key)` triples: the all-zero capacity check `continue`s
first; otherwise `cb_idx = callbacks[key]` runs (raising `TypeError` on
the tuple, see `tupleGetStr`) and only then would the dimension be
added. -/
def dimLoop (cbs : DemandCallbacksPair) :
    Model → List (String × List ℤ × String) → Except PyError Model
  | mdl, [] => .ok mdl
  | mdl, nck :: rest =>
      if nck.2.1.all (fun c => c == 0) then dimLoop cbs mdl rest
      else
        match tupleGetStr cbs nck.2.2 with
        | .error e => .error e
        | .ok cb =>
            dimLoop cbs
              { mdl with dims := mdl.dims ++ [⟨nck.1, cb, 0, nck.2.1, true⟩] } rest

/-- Embedding of `add_dimensions_and_constraints` (`routing.py`) as
`apply_all_constraints` actually invokes it (`constraints.py` lines
96–97): the `callbacks` argument it receives is the whole
`(cb_indices, demand_fns)` tuple, not the declared `Dict[str, int]`.
Per-kind capacity vectors (CEU scaled by `int(round(· * 10))`, the class
counters with `or 0` defaulting) are built, then the loop aborts with
`TypeError` at the first kind whose capacity vector is not all zero. -/
def addDimensionsAndConstraints (mdl : Model) (trailers : List Trailer)
    (callbacks : DemandCallbacksPair) : Except PyError Model :=
  let ceuCap := trailers.map (fun t => ceuDimensionCeuCap t.ceu_max)
  let ligCap := trailers.map (fun t => t.ligeiro_max.getD 0)
  let furCap := trailers.map (fun t => t.furgo_max.getD 0)
  let rodCap := trailers.map (fun t => t.rodado_max.getD 0)
  dimLoop callbacks mdl
    [("CEU", ceuCap, "ceu"), ("LIG", ligCap, "lig"),
     ("FUR", furCap, "fur"), ("ROD", rodCap, "rod")]

/-- Embedding of `add_distance_penalty` (`routing.py`): registers the
`DIST` arc dimension over `safe_dist_lookup`, sets its global span cost
coefficient, and optionally caps every vehicle's end cumul. -/
def addDistancePenalty (mdl : Model) (m : Manager) (mat : List (List ℤ))
    (penaltyPerKm : ℤ) (maxKm : Option ℤ) : Model :=
  { mdl with
    arcDims := mdl.arcDims ++
      [⟨"DIST", fun i j => safeDistLookup mat m i j, 0, 10000000, true⟩],
    spanCostCoeff := mdl.spanCostCoeff ++ [("DIST", penaltyPerKm)],
    endCumulMax := mdl.endCumulMax ++
      (match maxKm with | some mk => [("DIST", mk)] | none => []) }

/-- External solver facts `apply_all_constraints` consults: vehicle count,
per-vehicle end index, next-variable domain membership, and the
`AssignmentOrNull` guard used by `interno_penalties`. -/
structure SolverEnv where
  nVehicles : ℕ
  endOf : ℕ → ℤ
  domainContains : ℤ → ℤ → Bool
  assignmentOrNull : ℤ → Bool

/-- Weight lookup `constraint_weights.get(key, default)`. -/
def weightOf (weights : List (String × ℚ)) (key : String) (dflt : ℚ) : ℚ :=
  ((weights.find? (fun kv => kv.1 = key)).map (·.2)).getD dflt

/-- Embedding of `apply_all_constraints` (`optimizer/constraints.py`): the
`(cb_indices, demand_fns)` pair returned by `create_demand_callbacks` is
passed whole into `add_dimensions_and_constraints`, whose string lookup
on it raises `TypeError` at the first kind with a nonzero capacity
vector; the exception propagates (`optimize` calls this outside any
`try`), so the later steps run only when every capacity vector is all
zero.  In that case the order is: distance penalty (defaults 3 and 400),
then the three optional families gated by their enable flags, in source
order. -/
def applyAllConstraints (m : Manager) (env : SolverEnv) (df : List Row)
    (trailers : List Trailer) (nServices : ℕ) (depotIndices : List ℤ)
    (distanceMatrix : List (List ℤ)) (constraintWeights : List (String × ℚ))
    (enableInterno enableForceReturn enablePickupPairs : Bool) :
    Except PyError Model :=
  let demandCbs := createDemandCallbacks df m depotIndices
  match addDimensionsAndConstraints emptyModel trailers demandCbs with
  | .error e => .error e
  | .ok mdl =>
    let mdl := addDistancePenalty mdl m distanceMatrix
        (pyTruncInt (weightOf constraintWeights "PENALIDADE_DIST_KM" 3))
        (some (pyTruncInt (weightOf constraintWeights "MAX_DIST_POR_TRAILER" 400)))
    let mdl := if enableInterno then
        let lowPrioIds := (List.range nServices).filter (fun i =>
          pyNorm ((df.get? i).bind Row.load_city_description) =
          pyNorm ((df.get? i).bind Row.unload_city_description))
        internoPenaltiesM mdl m lowPrioIds nServices
          (pyTruncInt (weightOf constraintWeights "INTERNO_LOW_PEN" 1000))
          env.assignmentOrNull
      else mdl
    let mdl := if enableForceReturn then
        addForceReturnConstraintsM mdl m df nServices env.nVehicles env.endOf
          env.domainContains
      else mdl
    .ok (if enablePickupPairs then addPickupDeliveryPairsM mdl m df else mdl)

/-- The exact invocation `optimize` (`optimizer/run_optimizer.py`) makes:
`n_services = len(df_usado)`, `depot_indices = starts`,
`constraint_weights = {"ceu": 1.0}`, `enable_pickup_pairs = True`, and the
other two enable flags left at their `False` defaults. -/
def applyAllConstraintsAsOptimize (m : Manager) (env : SolverEnv) (df : List Row)
    (trailers : List Trailer) (starts : List ℤ)
    (distanceMatrix : List (List ℤ)) : Except PyError Model :=
  applyAllConstraints m env df trailers df.length starts distanceMatrix
    [("ceu", 1)] false false true

/-! ## Greedy subset selection (`optimizer/subset_selection.py`)

The per-trailer capacity records, the service blocks obtained by grouping
the DataFrame on `["id", "registry"]`, the per-base first-fit pass and
the cross-base fallback pass are transcribed below.  External geography
(`get_coords`, `haversine_km`) enters as the parameters `coords` and
`hav`.  The Python allocation dict `alocacoes_por_trailer` (mapping
trailer index to its `service_reg` list) is kept here as the flat
journals `journal1`/`journal2` of `(trailer index, trailer base, block)`
entries in allocation order; grouping a journal by trailer index and
projecting each block to its `service_reg` recovers the dict. -/

/-- Mutable per-trailer capacity record built at the top of
`selecionar_servicos_e_trailers_compativeis` (`idx`, `cap`, `restante`,
`base_city`). -/
structure TrailerCap where
  idx : ℕ
  cap : ℤ
  restante : ℤ
  base_city : PyStr
deriving DecidableEq, Repr, Inhabited

/-- One grouped service block: stable key representative `service_reg`,
the group's rows, summed CEU (pandas `sum` skips NaN cells) and the
first row's `scheduled_base`. -/
structure Block where
  service_reg : ℕ
  rows : List Row
  ceu : ℤ
  base : PyStr
deriving DecidableEq, Repr, Inhabited

/-- One allocation: which trailer (index and base city) received which
block. -/
structure AllocEntry where
  idx : ℕ
  trailerBase : PyStr
  block : Block
deriving DecidableEq, Repr, Inhabited

/-- First-appearance deduplication, as pandas `Series.unique()`. -/
def uniqueFirst [DecidableEq α] : List α → List α :=
  go []
where
  go [DecidableEq α] (seen : List α) : List α → List α
    | [] => []
    | a :: l => if a ∈ seen then go seen l else a :: go (a :: seen) l

/-- Lexicographic order on the `(id, registry)` group keys (pandas
`groupby` with default `sort=True` emits groups in sorted key order). -/
def keyLe (a b : ℕ × ℕ) : Prop := a.1 < b.1 ∨ (a.1 = b.1 ∧ a.2 ≤ b.2)

instance : DecidableRel keyLe := fun a b => by
  unfold keyLe; infer_instance

/-- Group key of a row: the `["id", "registry"]` columns (the source
falls back to `["id"]` when `registry` is absent; a constant `registry`
value models that case exactly). -/
def rowKey (r : Row) : ℕ × ℕ := (r.id, r.registry)

/-- Capacity records: `cap = int(float(t.get("ceu_max", 0)) * 10)`,
`restante` starting at `cap`, positional `idx`. -/
def mkTrailerCaps (trailers : List Trailer) : List TrailerCap :=
  trailers.enum.map (fun it =>
    { idx := it.1, cap := subsetSelectionCeuCap it.2.ceu_max,
      restante := subsetSelectionCeuCap it.2.ceu_max, base_city := it.2.base_city })

/-- Service blocks from the grouped DataFrame: one block per distinct
`(id, registry)` key (in sorted key order, as pandas emits them), with
the group's rows in DataFrame order. -/
def mkBlocks (df : List Row) : List Block :=
  (List.insertionSort keyLe (uniqueFirst (df.map rowKey))).map (fun k =>
    let rows := df.filter (fun r => rowKey r = k)
    { service_reg := rows.headI.service_reg,
      rows := rows,
      ceu := (rows.map (fun r => r.ceu_int.getD 0)).sum,
      base := rows.headI.scheduled_base })

/-- Blocks in descending total-CEU order (`sort(key=lambda s: -s["ceu"])`;
Python's sort is stable and so is `insertionSort` with this relation). -/
def sortedServiceBlocks (df : List Row) : List Block :=
  List.insertionSort (fun a b : Block => b.ceu ≤ a.ceu) (mkBlocks df)

/-- State threaded through both allocation passes: the capacity records,
`used_services` (the list of allocated group DataFrames),
`used_trailer_idxs` (in insertion order; the source keeps a set), and the
two allocation journals. -/
structure SelState where
  caps : List TrailerCap
  usedDfs : List (List Row)
  usedIdxs : List ℕ
  journal1 : List AllocEntry
  journal2 : List AllocEntry
deriving Repr

/-- First-fit scan of the base pass: find the first capacity record of
the given base with room for `ceu`, and decrement it.  Returns the
record found (pre-decrement) and the updated list. -/
def tryAllocBase (base : PyStr) (ceu : ℤ) :
    List TrailerCap → Option (TrailerCap × List TrailerCap)
  | [] => none
  | t :: ts =>
      if t.base_city = base ∧ ceu ≤ t.restante then
        some (t, { t with restante := t.restante - ceu } :: ts)
      else
        match tryAllocBase base ceu ts with
        | none => none
        | some (u, ts2) => some (u, t :: ts2)

/-- One block of the per-base pass: allocate to the first fitting trailer
of the base, if any, recording the allocation. -/
def phase1Step (base : PyStr) (st : SelState) (b : Block) : SelState :=
  match tryAllocBase base b.ceu st.caps with
  | none => st
  | some (t, caps2) =>
      { st with
          caps := caps2,
          usedDfs := st.usedDfs ++ [b.rows],
          usedIdxs := st.usedIdxs ++ [t.idx],
          journal1 := st.journal1 ++ [⟨t.idx, t.base_city, b⟩] }

/-- The per-base pass: for each distinct `scheduled_base` (first
appearance order, as `Series.unique()`), allocate that base's blocks in
descending-CEU order. -/
def phase1 (blocks : List Block) (bases : List PyStr) (st : SelState) : SelState :=
  bases.foldl
    (fun acc base => (blocks.filter (fun b => b.base = base)).foldl (phase1Step base) acc)
    st

/-- Distance key of the fallback sort (`get_dist`): infinite when either
base has no coordinates. -/
def fallbackDistKey (coords : PyStr → Option (ℚ × ℚ)) (hav : ℚ × ℚ → ℚ × ℚ → ℚ)
    (blockBase : PyStr) (t : TrailerCap) : WithTop ℚ :=
  match coords t.base_city, coords blockBase with
  | some a, some b => (hav a b : WithTop ℚ)
  | _, _ => ⊤

/-- Candidate scan of the fallback pass over capacity-record positions
(the candidate membership is frozen before the pass; `restante` is read
from the current records): skip candidates with unknown coordinates, skip
candidates farther than 200 km, allocate to the first remaining fit. -/
def phase2Scan (coords : PyStr → Option (ℚ × ℚ)) (hav : ℚ × ℚ → ℚ × ℚ → ℚ)
    (b : Block) (caps : List TrailerCap) : List ℕ → Option (TrailerCap × ℕ × List TrailerCap)
  | [] => none
  | p :: ps =>
      match caps.get? p with
      | none => phase2Scan coords hav b caps ps
      | some t =>
        match coords t.base_city, coords b.base with
        | some ca, some cb =>
            if 200 < hav ca cb then phase2Scan coords hav b caps ps
            else if b.ceu ≤ t.restante then
              some (t, p, caps.set p { t with restante := t.restante - b.ceu })
            else phase2Scan coords hav b caps ps
        | _, _ => phase2Scan coords hav b caps ps

/-- One block of the fallback pass: scan the frozen candidate positions
in ascending distance order (stable, as Python's `sorted`). -/
def phase2Step (coords : PyStr → Option (ℚ × ℚ)) (hav : ℚ × ℚ → ℚ × ℚ → ℚ)
    (candPos : List ℕ) (st : SelState) (b : Block) : SelState :=
  let sortedPos := List.insertionSort
    (fun p q : ℕ =>
      fallbackDistKey coords hav b.base ((st.caps.get? p).getD default) ≤
      fallbackDistKey coords hav b.base ((st.caps.get? q).getD default))
    candPos
  match phase2Scan coords hav b st.caps sortedPos with
  | none => st
  | some (t, _, caps2) =>
      { st with
          caps := caps2,
          usedDfs := st.usedDfs ++ [b.rows],
          usedIdxs := st.usedIdxs ++ [t.idx],
          journal2 := st.journal2 ++ [⟨t.idx, t.base_city, b⟩] }

/-- Result record of the subset selection. -/
structure SelOutput where
  dfUsado : List Row
  dfRestante : List Row
  trailersUsados : List Trailer
  journal1 : List AllocEntry
  journal2 : List AllocEntry
  finalCaps : List TrailerCap
deriving Repr

/-- Core of `selecionar_servicos_e_trailers_compativeis`: build the
capacity records and sorted service blocks, run the per-base pass over
the distinct `scheduled_base` values (first-appearance order, as
`Series.unique()`; a NaN base, dropped by `dropna()` in the source,
behaves like a string matching no trailer base and no coordinates),
then the fallback pass over the blocks not yet used and the trailers
not yet used. -/
def selecionarState (df : List Row) (trailers : List Trailer)
    (coords : PyStr → Option (ℚ × ℚ)) (hav : ℚ × ℚ → ℚ × ℚ → ℚ) : SelState :=
  let blocks := sortedServiceBlocks df
  let bases := uniqueFirst (df.map Row.scheduled_base)
  let st0 : SelState := { caps := mkTrailerCaps trailers, usedDfs := [],
                          usedIdxs := [], journal1 := [], journal2 := [] }
  let st1 := phase1 blocks bases st0
  let fallbackBlocks := blocks.filter (fun b => ¬ b.rows ∈ st1.usedDfs)
  let candPos := (List.range st1.caps.length).filter (fun p => ¬ p ∈ st1.usedIdxs)
  fallbackBlocks.foldl (phase2Step coords hav candPos) st1

/-- Embedding of `selecionar_servicos_e_trailers_compativeis`: the early
return on empty inputs, the two allocation passes (`selecionarState`),
and the assembly of `df_usado`, `df_restante` (anti-join on
`["id", "registry"]`) and `trailers_usados` (used indices in ascending
order). -/
def selecionar (df : List Row) (trailers : List Trailer)
    (coords : PyStr → Option (ℚ × ℚ)) (hav : ℚ × ℚ → ℚ × ℚ → ℚ) : SelOutput :=
  if df = [] ∨ trailers = [] then
    { dfUsado := df, dfRestante := df, trailersUsados := [],
      journal1 := [], journal2 := [], finalCaps := [] }
  else
    let st2 := selecionarState df trailers coords hav
    let dfUsado := st2.usedDfs.flatten
    let usedKeys := dfUsado.map rowKey
    let dfRestante :=
      if dfUsado = [] then df
      else df.filter (fun r => ¬ rowKey r ∈ usedKeys)
    let trailersUsados :=
      (List.insertionSort (fun a b : ℕ => a ≤ b) (uniqueFirst st2.usedIdxs)).filterMap
        (fun i => trailers.get? i)
    { dfUsado := dfUsado, dfRestante := dfRestante, trailersUsados := trailersUsados,
      journal1 := st2.journal1, journal2 := st2.journal2, finalCaps := st2.caps }

/-! ## The sequential round loop of `optimize` (`optimizer/run_optimizer.py`)

The geographic clustering (scikit-learn KMeans over geocoded
coordinates) is external, so the interleaved cluster list is a parameter;
the model build plus the two `solve_with_params` attempts are summarised
by the oracle `solveOk` (a round whose model raises during setup or whose
both solve attempts return `None` is skipped with `continue`); the typed
embedding makes the required-column validations vacuous.  Each round
filters its cluster by the `services_alocados` set, runs the subset
selection, and on success extends `services_alocados` with the distinct
`service_reg` values of `df_usado` and removes the used trailers. -/

/-- Loop state of `optimize`: `services_alocados`, `trailers_restantes`,
and the per-round "used" outputs of the successfully solved rounds. -/
structure OptState where
  allocated : List ℕ
  trailersRem : List Trailer
  results : List (ℕ × List ℕ)

/-- One round of the `optimize` loop over an enumerated cluster. -/
def optimizeRound (coords : PyStr → Option (ℚ × ℚ)) (hav : ℚ × ℚ → ℚ × ℚ → ℚ)
    (solveOk : ℕ → Bool) (st : OptState) (rc : ℕ × List Row) : OptState :=
  let dfRest := rc.2.filter (fun r => ¬ r.service_reg ∈ st.allocated)
  if dfRest = [] ∨ st.trailersRem = [] then st
  else
    let out := selecionar dfRest st.trailersRem coords hav
    if out.dfUsado = [] ∨ out.trailersUsados = [] then st
    else if ¬ solveOk rc.1 then st
    else
      let used := uniqueFirst (out.dfUsado.map Row.service_reg)
      { allocated := st.allocated ++ used,
        trailersRem := st.trailersRem.filter (fun t => ¬ t ∈ out.trailersUsados),
        results := st.results ++ [(rc.1, used)] }

/-- The sequential rounds of one `optimize` run: clusters enumerated from
1, empty `services_alocados`, the full trailer pool.  Returns, per
successfully solved round, the round number and the distinct
`service_reg` values added to `services_alocados`. -/
def optimizeRounds (clusters : List (List Row)) (trailers : List Trailer)
    (coords : PyStr → Option (ℚ × ℚ)) (hav : ℚ × ℚ → ℚ × ℚ → ℚ)
    (solveOk : ℕ → Bool) : List (ℕ × List ℕ) :=
  ((clusters.enumFrom 1).foldl (optimizeRound coords hav solveOk)
    { allocated := [], trailersRem := trailers, results := [] }).results

/-! ## Claim C6 — scaled CEU capacity: truncation vs rounding -/

/-- Claim C6, as frozen, is false: for `ceu_max = 2.35` the subset
selection truncates `23.5` to `23` while the CEU dimension rounds it
(half-to-even) to `24`, so the two scaled capacities differ. -/
theorem C6_counterexample :
    (0 : ℚ) ≤ 47/20 ∧ subsetSelectionCeuCap (47/20) = 23 ∧
      ceuDimensionCeuCap (47/20) = 24 := by
  refine ⟨by norm_num, ?_, ?_⟩
  · have h10 : (47/20 : ℚ) * 10 = 47/2 := by norm_num
    have hfl : ⌊(47/2 : ℚ)⌋ = 23 := by
      rw [Int.floor_eq_iff]
      norm_num
    simp only [subsetSelectionCeuCap, pyTruncInt, h10]
    rw [if_pos (by norm_num)]
    exact hfl
  · have h10 : (47/20 : ℚ) * 10 = 47/2 := by norm_num
    have hfl : ⌊(47/2 : ℚ)⌋ = 23 := by
      rw [Int.floor_eq_iff]
      norm_num
    simp only [ceuDimensionCeuCap, pyRoundHalfEven, h10, hfl]
    have hr : (47/2 : ℚ) - ((23 : ℤ) : ℚ) = 1/2 := by norm_num
    rw [hr, if_neg (by norm_num), if_neg (by norm_num),
      if_neg (by decide : ¬ Even (23 : ℤ))]
    norm_num

/-- Claim C6 (amended): the truncated scaled capacity used by the subset
selection agrees with the rounded scaled capacity enforced by the CEU
routing dimension whenever the non-negative `ceu_max` has at most one
decimal digit, i.e. whenever `ceu_max * 10` is an integer; in general
(`ceu_max = 2.35`) the two differ. -/
theorem C6_scaled_caps_agree_on_tenths (q : ℚ) (hq : 0 ≤ q)
    (hden : (q * 10).den = 1) : subsetSelectionCeuCap q = ceuDimensionCeuCap q := by
  set x : ℚ := q * 10 with hx
  have hxint : ((x.num : ℤ) : ℚ) = x := by
    conv_rhs => rw [← Rat.num_div_den x]
    rw [hden]
    push_cast
    ring
  have hfl : ⌊x⌋ = x.num := by
    rw [← hxint]
    exact Int.floor_intCast x.num
  have hx0 : 0 ≤ x := by positivity
  have h1 : subsetSelectionCeuCap q = x.num := by
    simp only [subsetSelectionCeuCap, pyTruncInt, ← hx]
    rw [if_pos hx0]
    exact hfl
  have h2 : ceuDimensionCeuCap q = x.num := by
    simp only [ceuDimensionCeuCap, pyRoundHalfEven, ← hx, hfl]
    have hr : x - ((x.num : ℤ) : ℚ) = 0 := by rw [hxint]; ring
    rw [hr]
    norm_num
  rw [h1, h2]

/-- Witness for C6's amended theorem at `ceu_max = 1.5`. -/
theorem C6_scaled_caps_agree_on_tenths_witness :
    subsetSelectionCeuCap (3/2) = ceuDimensionCeuCap (3/2) :=
  C6_scaled_caps_agree_on_tenths (3/2) (by norm_num) (by norm_num)

/-! ## Claim C5 — out-of-range behaviour of the transit-cost callbacks -/

/-- Concrete one-node manager for the C5 counterexample: index `0` maps
to node `0`, every other index is rejected. -/
def mgrOneNode : Manager :=
  { numIndices := 1,
    indexToNode := fun i => if i = 0 then some 0 else none,
    nodeToIndex := fun n => if n = 0 then 0 else -1 }

/-- Claim C5, as frozen, is false for `safe_dist_lookup`: at the
out-of-range index `2` (`nodeCount = 1`) it returns `0`, which is not the
fixed large sentinel and is zero. -/
theorem C5_counterexample :
    safeDistLookup [[5]] mgrOneNode 2 0 = 0 ∧
      safeDistLookup [[5]] mgrOneNode 2 0 ≠ routingDefaultPenalty := by
  constructor <;> decide

/-- Claim C5 (amended): neither distance callback can raise (both are
total functions); `safe_dist_lookup` returns the large sentinel for
negative indices but returns `0` (not the sentinel) for indices at or
above the manager's index count; the model's registered transit-cost
callback `cost_cb` (`setup_model.py`) does return its large sentinel for
every index outside `[0, nodeCount)` on either side. -/
theorem C5_out_of_range_sentinels :
    (∀ (mat : List (List ℤ)) (m : Manager) (i j : ℤ),
        i < 0 ∨ j < 0 → safeDistLookup mat m i j = routingDefaultPenalty) ∧
    (∀ (mat : List (List ℤ)) (m : Manager) (i j : ℤ),
        0 ≤ i → 0 ≤ j → ((m.numIndices : ℤ) ≤ i ∨ (m.numIndices : ℤ) ≤ j) →
        safeDistLookup mat m i j = 0) ∧
    (∀ (mat : List (List ℤ)) (m : Manager) (i j : ℤ),
        (i < 0 ∨ (m.numIndices : ℤ) ≤ i ∨ j < 0 ∨ (m.numIndices : ℤ) ≤ j) →
        costCb mat m i j = setupDefaultPenalty) := by
  refine ⟨?_, ?_, ?_⟩
  · intro mat m i j h
    unfold safeDistLookup
    rw [if_pos h]
  · intro mat m i j hi hj h
    unfold safeDistLookup
    rw [if_neg (by omega), if_pos h]
  · intro mat m i j h
    unfold costCb
    rw [if_pos (by omega)]

/-- Witness for C5's amended theorem at concrete out-of-range inputs. -/
theorem C5_out_of_range_sentinels_witness :
    safeDistLookup [[5]] mgrOneNode (-1) 0 = routingDefaultPenalty ∧
    safeDistLookup [[5]] mgrOneNode 0 3 = 0 ∧
    costCb [[5]] mgrOneNode 2 0 = setupDefaultPenalty :=
  ⟨C5_out_of_range_sentinels.1 [[5]] mgrOneNode (-1) 0 (by decide),
   C5_out_of_range_sentinels.2.1 [[5]] mgrOneNode 0 3 (by decide) (by decide) (by decide),
   C5_out_of_range_sentinels.2.2 [[5]] mgrOneNode 2 0 (by decide)⟩

/-! ## Claim C2 — demand callbacks match the specified reference shape -/

/-- Claim C2: for every capacity kind, the demand callback built by
`create_demand_callbacks` is total and agrees everywhere with the
reference definition: zero at depot nodes, the service's scaled demand at
its pickup node, zero at its delivery node, and zero (never an exception)
for every index outside the current batch's service range, including
negative and out-of-manager-range indices. -/
theorem C2_demand_callback_matches_spec (df : List Row) (m : Manager)
    (depotIndices : List ℤ) (k : CapKind) (index : ℤ) :
    pyDemand df m depotIndices k index = refDemandSpec df m depotIndices k index := by
  unfold pyDemand refDemandSpec
  by_cases h0 : index < 0 ∨ (m.numIndices : ℤ) ≤ index
  · rw [if_pos h0, if_pos h0]
  · rw [if_neg h0, if_neg h0]
    cases hN : m.indexToNode index with
    | none => rfl
    | some node =>
      dsimp only
      by_cases hdep : (node : ℤ) ∈ depotIndices
      · rw [if_pos hdep, if_pos hdep]
      · rw [if_neg hdep, if_neg hdep]
        by_cases hlt : (node : ℤ) < (df.length : ℤ)
        · -- pickup node
          have hpick : (decide ((node : ℤ) < (df.length : ℤ))) = true := by
            simp [hlt]
          rw [if_pos hlt]
          simp only [hpick, if_true, cond_true]
          have hguard : ¬ ((node : ℤ) < 0 ∨ (df.length : ℤ) ≤ (node : ℤ)) := by omega
          rw [if_neg hguard]
          have htoNat : ((node : ℤ)).toNat = node := Int.toNat_natCast node
          rw [htoNat]
          cases hrow : df.get? node with
          | none => cases k <;> rfl
          | some row =>
            cases k with
            | ceu =>
              simp only [serviceDemand]
              cases hc : row.ceu_int with
              | none => simp [hc]
              | some v => simp [hc]
            | lig => simp [serviceDemand]
            | fur => simp [serviceDemand]
            | rod => simp [serviceDemand]
        · -- delivery node or outside the service range
          have hpick : (decide ((node : ℤ) < (df.length : ℤ))) = false := by
            simp [hlt]
          rw [if_neg hlt]
          simp only [hpick, if_false, cond_false, Bool.false_eq_true]
          by_cases h2n : (node : ℤ) < 2 * (df.length : ℤ)
          · -- delivery node: inner guard passes, every kind returns 0
            have hguard : ¬ ((node : ℤ) - (df.length : ℤ) < 0 ∨
                (df.length : ℤ) ≤ (node : ℤ) - (df.length : ℤ)) := by omega
            rw [if_neg hguard, if_pos h2n]
            cases hrow : df.get? ((node : ℤ) - (df.length : ℤ)).toNat with
            | none => cases k <;> rfl
            | some row =>
              cases k with
              | ceu => simp
              | lig => simp
              | fur => simp
              | rod => simp
          · -- beyond the delivery range: inner guard fires
            have hguard : (node : ℤ) - (df.length : ℤ) < 0 ∨
                (df.length : ℤ) ≤ (node : ℤ) - (df.length : ℤ) := by omega
            rw [if_pos hguard, if_neg h2n]

/-! ## Claim C1 — pickup-delivery pairing constraints -/

/-- Claim C1: every solution satisfying the constraints posted by
`add_pickup_delivery_pairs` puts each service's pickup and delivery on
the same vehicle and gives the pickup a `DIST` cumulative value at most
the delivery's, for every service of the batch whose two solver indices
exist. -/
theorem C1_pickup_delivery_pairing (n : ℕ) (m : Manager) (A : Assignment)
    (hsat : ∀ c ∈ pickupPairCstrs n m, satC A c)
    (i : ℕ) (hi : i < n)
    (hp : 0 ≤ m.nodeToIndex i) (hd : 0 ≤ m.nodeToIndex (i + n)) :
    A.vehicle (m.nodeToIndex i) = A.vehicle (m.nodeToIndex (i + n)) ∧
      A.cumul "DIST" (m.nodeToIndex i) ≤ A.cumul "DIST" (m.nodeToIndex (i + n)) := by
  have hmem : ∀ c ∈ [Cstr.sameVehicle (m.nodeToIndex i) (m.nodeToIndex (i + n)),
      Cstr.cumulLe "DIST" (m.nodeToIndex i) (m.nodeToIndex (i + n))],
      c ∈ pickupPairCstrs n m := by
    intro c hc
    unfold pickupPairCstrs
    refine List.mem_flatMap.mpr ⟨i, List.mem_range.mpr hi, ?_⟩
    dsimp only
    rw [if_neg (by omega)]
    exact hc
  have h1 := hsat (Cstr.sameVehicle (m.nodeToIndex i) (m.nodeToIndex (i + n)))
    (hmem _ (by simp))
  have h2 := hsat (Cstr.cumulLe "DIST" (m.nodeToIndex i) (m.nodeToIndex (i + n)))
    (hmem _ (by simp))
  exact ⟨h1, h2⟩

/-- Sequential manager used by several witnesses: node `k` has solver
index `k`, every index below the count maps back to its node. -/
def mgrSeq (nn : ℕ) : Manager :=
  { numIndices := nn,
    indexToNode := fun i => if 0 ≤ i ∧ i < nn then some i.toNat else none,
    nodeToIndex := fun k => (k : ℤ) }

/-- Solution used by witnesses: everything on vehicle 0, every successor
the end index 5, all cumulative values 0. -/
def flatAssignment : Assignment :=
  { vehicle := fun _ => 0, next := fun _ => 5, cumul := fun _ _ => 0 }

/-- Witness for C1 at a one-service batch. -/
theorem C1_pickup_delivery_pairing_witness :
    flatAssignment.vehicle ((mgrSeq 2).nodeToIndex 0) =
        flatAssignment.vehicle ((mgrSeq 2).nodeToIndex 1) ∧
      flatAssignment.cumul "DIST" ((mgrSeq 2).nodeToIndex 0) ≤
        flatAssignment.cumul "DIST" ((mgrSeq 2).nodeToIndex 1) := by
  refine C1_pickup_delivery_pairing 1 (mgrSeq 2) flatAssignment ?_ 0 (by decide)
    (by decide) (by decide)
  intro c hc
  have hlist : pickupPairCstrs 1 (mgrSeq 2) =
      [Cstr.sameVehicle 0 1, Cstr.cumulLe "DIST" 0 1] := by decide
  rw [hlist] at hc
  fin_cases hc
  · exact rfl
  · exact le_refl _

/-! ## Claim C7 — forced return to base -/

/-- Claim C7 (amended, semantic half): every solution satisfying the
implications posted by `add_force_return_constraints` routes the vehicle
serving a `force_return` delivery straight to that vehicle's end index,
for every vehicle whose end index lies in the next-variable domain of
the delivery at posting time. -/
theorem C7_force_return_semantics (df : List Row) (nSrv : ℕ) (m : Manager)
    (nVehicles : ℕ) (endOf : ℕ → ℤ) (dom : ℤ → ℤ → Bool) (A : Assignment)
    (hsat : ∀ c ∈ forceReturnCstrs df nSrv m nVehicles endOf dom, satC A c)
    (i : ℕ) (hi : i < nSrv) (row : Row) (hrow : df.get? i = some row)
    (hfr : row.force_return = true)
    (hdrop : 0 ≤ m.nodeToIndex (i + nSrv))
    (v : ℕ) (hv : v < nVehicles)
    (hdom : dom (m.nodeToIndex (i + nSrv)) (endOf v) = true)
    (hveh : A.vehicle (m.nodeToIndex (i + nSrv)) = (v : ℤ)) :
    A.next (m.nodeToIndex (i + nSrv)) = endOf v := by
  have hmem : Cstr.forceReturnImp (m.nodeToIndex (i + nSrv)) (v : ℤ) (endOf v) ∈
      forceReturnCstrs df nSrv m nVehicles endOf dom := by
    unfold forceReturnCstrs
    refine List.mem_flatMap.mpr ⟨i, List.mem_range.mpr hi, ?_⟩
    dsimp only
    have hguard : (((df.get? i).map Row.force_return).getD false) = true := by
      rw [hrow]
      simpa using hfr
    rw [hguard, if_pos rfl, if_neg (by omega)]
    refine List.mem_flatMap.mpr ⟨v, List.mem_range.mpr hv, ?_⟩
    rw [hdom]
    simp
  exact (hsat _ hmem) hveh

/-- Default service row shared by the concrete instances below. -/
def baseRow : Row :=
  { id := 0, registry := 0, service_reg := 0, ceu_int := some 0,
    scheduled_base := [], vehicle_category_name := none, force_return := false,
    load_city_description := none, unload_city_description := none }

/-- Two-service batch whose first service is flagged `force_return`. -/
def dfForceReturn : List Row :=
  [{ baseRow with id := 1, service_reg := 1, force_return := true },
   { baseRow with id := 2, service_reg := 2 }]

/-- Trailer used by the concrete instances. -/
def trailerA : Trailer :=
  { id := 1, base_city := [65], ceu_max := 6, ligeiro_max := some 1,
    furgo_max := none, rodado_max := none }

/-- Solver environment for the concrete C7 instance: one vehicle ending
at index 5, every end index inside every next-variable domain. -/
def envC7 : SolverEnv :=
  { nVehicles := 1, endOf := fun _ => 5,
    domainContains := fun _ _ => true, assignmentOrNull := fun _ => false }

/-- Claim C7, as frozen, is false for the pipeline: on a concrete batch
with a `force_return` service, one vehicle, and the vehicle's end index
in every next-variable domain, the `apply_all_constraints` invocation
`optimize` makes never posts a force-return implication — the trailer's
nonzero CEU capacity makes `add_dimensions_and_constraints` reach
`callbacks["ceu"]` on the `(cb_indices, demand_fns)` tuple, raising
`TypeError` before any constraint family (and `enable_force_return` was
left `False` besides) — even though `add_force_return_constraints` would
have posted one for this pair. -/
theorem C7_counterexample :
    applyAllConstraintsAsOptimize (mgrSeq 5) envC7 dfForceReturn [trailerA]
        [0] [[0]] = Except.error PyError.typeError ∧
      forceReturnCstrs dfForceReturn 2 (mgrSeq 5) 1 envC7.endOf
        envC7.domainContains ≠ [] := by
  refine ⟨?_, ?_⟩
  · with_unfolding_all rfl
  · with_unfolding_all decide

/-- Witness for C7's amended theorem on the concrete instance, with the
force-return constraints actually posted and a solution satisfying
them. -/
theorem C7_force_return_semantics_witness :
    flatAssignment.next ((mgrSeq 5).nodeToIndex (0 + 2)) = envC7.endOf 0 := by
  refine C7_force_return_semantics dfForceReturn 2 (mgrSeq 5) 1 envC7.endOf
    envC7.domainContains flatAssignment ?_ 0 (by decide)
    { baseRow with id := 1, service_reg := 1, force_return := true } (by decide)
    (by decide) (by decide) 0 (by decide) (by decide) (by decide)
  intro c hc
  have hlist : forceReturnCstrs dfForceReturn 2 (mgrSeq 5) 1 envC7.endOf
      envC7.domainContains = [Cstr.forceReturnImp 2 0 5] := by decide
  rw [hlist] at hc
  fin_cases hc
  intro _
  rfl

/-! ## Claim C8 — disjunction exclusivity and the `_disj_nodes` attribute -/

/-- The disjunctions one `interno_penalties` call adds, as a filterMap
over `pickup_ids` (closed form of the `internoStep` fold). -/
def internoDisjList (m : Manager) (nSrv : ℕ) (weight : ℤ) (anal : ℤ → Bool)
    (ids : List ℕ) : List (List ℤ × ℤ) :=
  ids.filterMap (fun srvId =>
    let p := m.nodeToIndex srvId
    let d := m.nodeToIndex (srvId + nSrv)
    if p < 0 ∨ d < 0 then none
    else if anal p ∨ anal d then none
    else some ([p, d], weight))

/-- The `internoStep` fold only appends disjunctions, and appends exactly
`internoDisjList`; the attribute and the posted constraints are left
untouched. -/
theorem interno_foldl_spec (m : Manager) (nSrv : ℕ) (w : ℤ) (anal : ℤ → Bool) :
    ∀ (ids : List ℕ) (mdl : Model),
      (ids.foldl (internoStep m nSrv w anal) mdl).disjunctions
          = mdl.disjunctions ++ internoDisjList m nSrv w anal ids ∧
        (ids.foldl (internoStep m nSrv w anal) mdl).disjNodesAttr = mdl.disjNodesAttr ∧
        (ids.foldl (internoStep m nSrv w anal) mdl).constraints = mdl.constraints := by
  intro ids
  induction ids with
  | nil => intro mdl; simp [internoDisjList]
  | cons a rest ih =>
    intro mdl
    have hstep := ih (internoStep m nSrv w anal mdl a)
    rw [List.foldl_cons]
    have hcons : internoDisjList m nSrv w anal (a :: rest)
        = (if m.nodeToIndex a < 0 ∨ m.nodeToIndex (a + nSrv) < 0 then
            internoDisjList m nSrv w anal rest
          else if anal (m.nodeToIndex a) ∨ anal (m.nodeToIndex (a + nSrv)) then
            internoDisjList m nSrv w anal rest
          else ([m.nodeToIndex a, m.nodeToIndex (a + nSrv)], w)
            :: internoDisjList m nSrv w anal rest) := by
      conv_lhs => unfold internoDisjList
      rw [List.filterMap_cons]
      dsimp only
      split_ifs <;> rfl
    refine ⟨?_, ?_, ?_⟩
    · rw [hstep.1, hcons]
      unfold internoStep
      dsimp only
      split_ifs <;> simp
    · rw [hstep.2.1]
      unfold internoStep
      dsimp only
      split_ifs <;> rfl
    · rw [hstep.2.2]
      unfold internoStep
      dsimp only
      split_ifs <;> rfl

/-- Node-level disjointness of two disjunctions. -/
def disjNodesDisjoint (d1 d2 : List ℤ × ℤ) : Prop :=
  ∀ x, x ∈ d1.1 → ¬ x ∈ d2.1

/-- Claim C8 (amended): within a single `interno_penalties` call over
duplicate-free `pickup_ids` drawn from `range(n_services)` (and a
node-to-index map injective where non-negative, as the solver manager
is), the disjunctions added are pairwise node-disjoint, so a service's
nodes join at most one disjunction; but the mutual exclusivity is not
tracked by any used-node set: the dynamically attached `_disj_nodes`
attribute is created empty and never updated or consulted, so nothing
prevents a second call from adding the same nodes to a second
disjunction. -/
theorem C8_disjunction_exclusivity_within_call (mdl : Model) (m : Manager)
    (ids : List ℕ) (nSrv : ℕ) (w : ℤ) (anal : ℤ → Bool)
    (hnodup : ids.Nodup) (hlt : ∀ a ∈ ids, a < nSrv)
    (hinj : ∀ a b : ℕ, 0 ≤ m.nodeToIndex a → m.nodeToIndex a = m.nodeToIndex b → a = b) :
    List.Pairwise disjNodesDisjoint (internoDisjList m nSrv w anal ids) ∧
      (internoPenaltiesM mdl m ids nSrv w anal).disjunctions
        = mdl.disjunctions ++ internoDisjList m nSrv w anal ids ∧
      (internoPenaltiesM mdl m ids nSrv w anal).disjNodesAttr
        = some (mdl.disjNodesAttr.getD []) := by
  have hfold := interno_foldl_spec m nSrv w anal ids
    (if mdl.disjNodesAttr = none then { mdl with disjNodesAttr := some [] } else mdl)
  refine ⟨?_, ?_, ?_⟩
  · unfold internoDisjList
    rw [List.pairwise_filterMap]
    have hne : List.Pairwise (fun a b : ℕ => a ∈ ids ∧ b ∈ ids ∧ a ≠ b) ids := by
      refine List.Pairwise.and_mem.mp ?_
      exact List.Pairwise.imp (fun h => h) hnodup
    refine hne.imp ?_
    rintro a b ⟨ha, hb, hab⟩ da hda db hdb x hxa hxb
    -- unpack the two successful filterMap results
    dsimp only at hda hdb
    by_cases hga : m.nodeToIndex a < 0 ∨ m.nodeToIndex (a + nSrv) < 0
    · rw [if_pos hga] at hda; exact absurd hda (by simp)
    rw [if_neg hga] at hda
    by_cases hga2 : anal (m.nodeToIndex a) ∨ anal (m.nodeToIndex (a + nSrv))
    · rw [if_pos hga2] at hda; exact absurd hda (by simp)
    rw [if_neg hga2] at hda
    by_cases hgb : m.nodeToIndex b < 0 ∨ m.nodeToIndex (b + nSrv) < 0
    · rw [if_pos hgb] at hdb; exact absurd hdb (by simp)
    rw [if_neg hgb] at hdb
    by_cases hgb2 : anal (m.nodeToIndex b) ∨ anal (m.nodeToIndex (b + nSrv))
    · rw [if_pos hgb2] at hdb; exact absurd hdb (by simp)
    rw [if_neg hgb2] at hdb
    have hda' : da = ([m.nodeToIndex a, m.nodeToIndex (a + nSrv)], w) := by
      simpa using hda.symm
    have hdb' : db = ([m.nodeToIndex b, m.nodeToIndex (b + nSrv)], w) := by
      simpa using hdb.symm
    subst hda' hdb'
    simp only [List.mem_cons, List.mem_singleton, List.not_mem_nil, or_false] at hxa hxb
    have haATlt : a < nSrv := hlt a ha
    have hbATlt : b < nSrv := hlt b hb
    rcases hxa with hxa | hxa <;> rcases hxb with hxb | hxb
    · exact hab (hinj a b (by omega) (by rw [← hxa, ← hxb]))
    · have := hinj a (b + nSrv) (by omega) (by rw [← hxa, ← hxb])
      omega
    · have := hinj (a + nSrv) b (by omega) (by rw [← hxa, ← hxb])
      omega
    · have := hinj (a + nSrv) (b + nSrv) (by omega) (by rw [← hxa, ← hxb])
      omega
  · unfold internoPenaltiesM
    rw [hfold.1]
    split_ifs <;> rfl
  · unfold internoPenaltiesM
    rw [hfold.2.1]
    cases hattr : mdl.disjNodesAttr with
    | none => rw [if_pos rfl]; rfl
    | some l =>
        rw [if_neg (by simp)]
        rw [hattr]
        rfl

/-- Witness for C8's amended theorem on a two-service call. -/
theorem C8_disjunction_exclusivity_within_call_witness :
    List.Pairwise disjNodesDisjoint
        (internoDisjList (mgrSeq 4) 2 1000 (fun _ => false) [0, 1]) ∧
      (internoPenaltiesM emptyModel (mgrSeq 4) [0, 1] 2 1000 (fun _ => false)).disjunctions
        = emptyModel.disjunctions ++
            internoDisjList (mgrSeq 4) 2 1000 (fun _ => false) [0, 1] ∧
      (internoPenaltiesM emptyModel (mgrSeq 4) [0, 1] 2 1000 (fun _ => false)).disjNodesAttr
        = some (emptyModel.disjNodesAttr.getD []) :=
  C8_disjunction_exclusivity_within_call emptyModel (mgrSeq 4) [0, 1] 2 1000
    (fun _ => false) (by decide) (by decide)
    (fun a b _ h => Nat.cast_injective h)

/-- Two identical `interno_penalties` calls on the same routing model. -/
def internoTwice : Model :=
  internoPenaltiesM
    (internoPenaltiesM emptyModel (mgrSeq 2) [0] 1 1000 (fun _ => false))
    (mgrSeq 2) [0] 1 1000 (fun _ => false)

/-- Claim C8, as frozen, is false: nothing stops a service's nodes from
joining a second disjunction — a repeated `interno_penalties` call adds
the same `[pickup, delivery]` pair to two disjunctions — and the
tracking the claim describes is the `_disj_nodes` attribute dynamically
attached to the solver object, which is still the empty set afterwards
(it is never updated), not an explicit used-node set. -/
theorem C8_counterexample :
    internoTwice.disjunctions = [([0, 1], 1000), ([0, 1], 1000)] ∧
      internoTwice.disjNodesAttr = some [] := by
  constructor <;> decide

/-! ## Claim C9 — idempotence of city-name normalization -/

/-- Head of `dropWhile` never satisfies the predicate. -/
theorem dropWhile_head_not (p : ℕ → Bool) :
    ∀ (l : PyStr) (a : ℕ), (l.dropWhile p).head? = some a → p a = false := by
  intro l
  induction l with
  | nil => intro a h; simp [List.dropWhile] at h
  | cons b t ih =>
    intro a h
    rw [List.dropWhile_cons] at h
    by_cases hb : p b
    · rw [if_pos hb] at h
      exact ih a h
    · rw [if_neg hb] at h
      simp only [List.head?_cons, Option.some.injEq] at h
      rcases h with rfl
      simpa using hb

/-- A list whose head does not satisfy the predicate is fixed by
`dropWhile`. -/
theorem dropWhile_eq_self_of_head (p : ℕ → Bool) (l : PyStr)
    (h : ∀ a, l.head? = some a → p a = false) : l.dropWhile p = l := by
  cases l with
  | nil => rfl
  | cons b t =>
    rw [List.dropWhile_cons, if_neg]
    simp [h b rfl]

/-- Elements of the stripped string come from the string. -/
theorem mem_pyStrip {c : ℕ} {l : PyStr} (h : c ∈ pyStrip l) : c ∈ l := by
  unfold pyStrip at h
  rw [List.mem_reverse] at h
  have h2 := (List.dropWhile_suffix pyIsSpace).subset h
  rw [List.mem_reverse] at h2
  exact (List.dropWhile_suffix pyIsSpace).subset h2

/-- `dropWhile` keeps the last element when its result is nonempty. -/
theorem getLast?_dropWhile_ne_nil (p : ℕ → Bool) (l : PyStr)
    (h : l.dropWhile p ≠ []) : (l.dropWhile p).getLast? = l.getLast? := by
  obtain ⟨s, hs⟩ := List.dropWhile_suffix (l := l) p
  conv_rhs => rw [← hs]
  rw [List.getLast?_append_of_ne_nil _ h]

/-- The first code point of a stripped string is not whitespace. -/
theorem pyStrip_head_not (l : PyStr) (a : ℕ) (h : (pyStrip l).head? = some a) :
    pyIsSpace a = false := by
  unfold pyStrip at h
  rw [List.head?_reverse] at h
  by_cases hB : (l.dropWhile pyIsSpace).reverse.dropWhile pyIsSpace = []
  · rw [hB] at h
    simp at h
  · rw [getLast?_dropWhile_ne_nil pyIsSpace _ hB, List.getLast?_reverse] at h
    exact dropWhile_head_not pyIsSpace l a h

/-- The last code point of a stripped string is not whitespace. -/
theorem pyStrip_getLast_not (l : PyStr) (a : ℕ) (h : (pyStrip l).getLast? = some a) :
    pyIsSpace a = false := by
  unfold pyStrip at h
  rw [List.getLast?_reverse] at h
  exact dropWhile_head_not pyIsSpace _ a h

/-- A string with non-whitespace first and last code points is fixed by
`strip`. -/
theorem pyStrip_eq_self (l : PyStr)
    (h1 : ∀ a, l.head? = some a → pyIsSpace a = false)
    (h2 : ∀ a, l.getLast? = some a → pyIsSpace a = false) : pyStrip l = l := by
  unfold pyStrip
  rw [dropWhile_eq_self_of_head pyIsSpace l h1]
  rw [dropWhile_eq_self_of_head pyIsSpace l.reverse
    (fun a ha => h2 a (by rwa [List.head?_reverse] at ha))]
  exact List.reverse_reverse l

/-- `strip` is idempotent. -/
theorem pyStrip_idem (l : PyStr) : pyStrip (pyStrip l) = pyStrip l :=
  pyStrip_eq_self _ (pyStrip_head_not l) (pyStrip_getLast_not l)

/-- ASCII uppercasing is idempotent. -/
theorem upperCp_idem (c : ℕ) : upperCp (upperCp c) = upperCp c := by
  unfold upperCp
  split_ifs <;> omega

/-- ASCII uppercasing preserves ASCII. -/
theorem upperCp_ascii {c : ℕ} (h : c < 128) : upperCp c < 128 := by
  unfold upperCp
  split_ifs <;> omega

/-- NFKD leaves ASCII code points alone. -/
theorem nfkdCp_ascii {c : ℕ} (h : c < 128) : nfkdCp c = [c] := by
  unfold nfkdCp
  rw [if_pos h]

/-- NFKD leaves ASCII strings alone. -/
theorem flatMap_nfkd_ascii (l : PyStr) (h : ∀ c ∈ l, c < 128) :
    l.flatMap nfkdCp = l := by
  induction l with
  | nil => rfl
  | cons b t ih =>
    rw [List.flatMap_cons, nfkdCp_ascii (h b (by simp))]
    rw [ih (fun c hc => h c (by simp [hc]))]
    rfl

/-- A map that fixes every element fixes the list. -/
theorem map_eq_self_of_fixed {f : ℕ → ℕ} {l : PyStr} (h : ∀ c ∈ l, f c = c) :
    l.map f = l := by
  induction l with
  | nil => rfl
  | cons b t ih =>
    rw [List.map_cons, h b (by simp), ih (fun c hc => h c (by simp [hc]))]

/-- Replacing a code point that does not occur is the identity. -/
theorem replaceCp_eq_self {a b : ℕ} {l : PyStr} (h : ∀ c ∈ l, c ≠ a) :
    replaceCp a b l = l :=
  map_eq_self_of_fixed (fun c hc => if_neg (h c hc))

/-- The accent-replacement chain is the identity on ASCII strings (all
its needles are Latin-1 code points at or above 128). -/
theorem accentReplacements_ascii (l : PyStr) (h : ∀ c ∈ l, c < 128) :
    accentReplacements l = l := by
  unfold accentReplacements
  rw [replaceCp_eq_self (a := 0xC1) (fun c hc => by have := h c hc; omega)]
  rw [replaceCp_eq_self (a := 0xC3) (fun c hc => by have := h c hc; omega)]
  rw [replaceCp_eq_self (a := 0xC9) (fun c hc => by have := h c hc; omega)]
  rw [replaceCp_eq_self (a := 0xCD) (fun c hc => by have := h c hc; omega)]
  rw [replaceCp_eq_self (a := 0xD3) (fun c hc => by have := h c hc; omega)]
  rw [replaceCp_eq_self (a := 0xDA) (fun c hc => by have := h c hc; omega)]
  rw [replaceCp_eq_self (a := 0xC7) (fun c hc => by have := h c hc; omega)]

/-- Shape of every `norm` output: ASCII, uppercase-fixed, and stripped. -/
def normOutGood (t : PyStr) : Prop :=
  (∀ c ∈ t, c < 128 ∧ upperCp c = c) ∧ pyStrip t = t

/-- Every `normCore` output has the good shape. -/
theorem normCore_good (s : PyStr) : normOutGood (normCore s) := by
  unfold normCore
  split_ifs with h
  · exact ⟨by decide, by decide⟩
  · have hchars : ∀ c ∈ (asciiIgnore (s.flatMap nfkdCp)).map upperCp,
        c < 128 ∧ upperCp c = c := by
      intro c hc
      obtain ⟨c', hc', rfl⟩ := List.mem_map.mp hc
      have hc'ascii : c' < 128 := by
        have := List.mem_filter.mp hc'
        simpa using this.2
      exact ⟨upperCp_ascii hc'ascii, upperCp_idem c'⟩
    have hsub : ∀ c ∈ pyStrip ((asciiIgnore (s.flatMap nfkdCp)).map upperCp),
        c < 128 ∧ upperCp c = c :=
      fun c hc => hchars c (mem_pyStrip hc)
    rw [accentReplacements_ascii _ (fun c hc => (hsub c hc).1)]
    exact ⟨hsub, pyStrip_idem _⟩

/-- `normCore` fixes every nonempty good-shaped string. -/
theorem normCore_fixed (t : PyStr) (hg : normOutGood t) (hne : t ≠ []) :
    normCore t = t := by
  unfold normCore
  rw [if_neg (by rw [hg.2]; exact hne)]
  rw [flatMap_nfkd_ascii t (fun c hc => (hg.1 c hc).1)]
  have hfilter : asciiIgnore t = t := by
    unfold asciiIgnore
    rw [List.filter_eq_self]
    intro a ha
    simpa using (hg.1 a ha).1
  rw [hfilter, map_eq_self_of_fixed (fun c hc => (hg.1 c hc).2), hg.2]
  exact accentReplacements_ascii t (fun c hc => (hg.1 c hc).1)

/-- Claim C9 (amended): `norm` maps `None` and whitespace-only strings to
the sentinel rather than raising, and is idempotent on every input whose
normalization is nonempty; a non-whitespace input whose code points all
vanish under the ASCII step (e.g. `"中"`) normalizes to the empty string,
which re-normalizes to the sentinel instead. -/
theorem C9_norm_idempotent_unless_vanishing :
    pyNorm none = desconhecida ∧
      (∀ s : PyStr, pyStrip s = [] → pyNorm (some s) = desconhecida) ∧
      (∀ x : Option PyStr, pyNorm x ≠ [] → pyNorm (some (pyNorm x)) = pyNorm x) := by
  refine ⟨rfl, ?_, ?_⟩
  · intro s h
    show normCore s = desconhecida
    unfold normCore
    rw [if_pos h]
  · intro x hne
    have hg : normOutGood (pyNorm x) := by
      cases x with
      | none => exact ⟨by decide, by decide⟩
      | some s => exact normCore_good s
    exact normCore_fixed _ hg hne

/-- Claim C9, as frozen, is false: the CJK input `"中"` (code point
20013) is not whitespace, so it passes the sentinel guard, but every one
of its code points is dropped by the ASCII step, so `norm` returns `""`;
renormalizing `""` yields `"DESCONHECIDA"`, so `norm` is not idempotent
at this input. -/
theorem C9_counterexample :
    pyNorm (some [20013]) = [] ∧
      pyNorm (some (pyNorm (some [20013]))) ≠ pyNorm (some [20013]) := by
  constructor <;> decide

/-- Witness for C9's amended theorem at the input `" evora "`. -/
theorem C9_norm_idempotent_unless_vanishing_witness :
    pyNorm (some [32, 101, 118, 111, 114, 97, 32]) ≠ [] ∧
      pyNorm (some (pyNorm (some [32, 101, 118, 111, 114, 97, 32])))
        = pyNorm (some [32, 101, 118, 111, 114, 97, 32]) :=
  ⟨by decide, C9_norm_idempotent_unless_vanishing.2.2 _ (by decide)⟩

/-! ## Claims C4 and C10 — invariants of the greedy subset selection -/

/-- Total CEU of the blocks a journal assigns to the trailer at position
`p`. -/
def journalCeuSum (j : List AllocEntry) (p : ℕ) : ℤ :=
  ((j.filter (fun e => e.idx = p)).map (fun e => e.block.ceu)).sum

/-- Appending one entry adds its CEU to exactly its trailer's total. -/
theorem journalCeuSum_append_entry (j : List AllocEntry) (e : AllocEntry) (p : ℕ) :
    journalCeuSum (j ++ [e]) p
      = journalCeuSum j p + (if e.idx = p then e.block.ceu else 0) := by
  unfold journalCeuSum
  rw [List.filter_append]
  by_cases h : e.idx = p
  · rw [List.filter_cons, if_pos (by simpa using h)]
    simp [h]
  · rw [List.filter_cons, if_neg (by simpa using h)]
    simp [h]

/-- Characterization of a successful first-fit scan of the base pass: it
finds a position `q` holding a record of the requested base with room,
and decrements exactly that record. -/
theorem tryAllocBase_spec (base : PyStr) (ceu : ℤ) :
    ∀ (caps caps2 : List TrailerCap) (t : TrailerCap),
      tryAllocBase base ceu caps = some (t, caps2) →
      ∃ q, caps.get? q = some t ∧ t.base_city = base ∧ ceu ≤ t.restante ∧
        caps2 = caps.set q { t with restante := t.restante - ceu } := by
  intro caps
  induction caps with
  | nil => intro caps2 t h; simp [tryAllocBase] at h
  | cons c cs ih =>
    intro caps2 t h
    unfold tryAllocBase at h
    by_cases hc : c.base_city = base ∧ ceu ≤ c.restante
    · rw [if_pos hc] at h
      simp only [Option.some.injEq, Prod.mk.injEq] at h
      refine ⟨0, ?_, ?_, ?_, ?_⟩
      · rw [← h.1]; rfl
      · rw [← h.1]; exact hc.1
      · rw [← h.1]; exact hc.2
      · rw [← h.2, ← h.1]; rfl
    · rw [if_neg hc] at h
      cases hrec : tryAllocBase base ceu cs with
      | none => rw [hrec] at h; simp at h
      | some pr =>
        rw [hrec] at h
        obtain ⟨u, ts2⟩ := pr
        simp only [Option.some.injEq, Prod.mk.injEq] at h
        obtain ⟨hut, hcaps⟩ := h
        subst hut
        obtain ⟨q, hq1, hq2, hq3, hq4⟩ := ih ts2 u hrec
        refine ⟨q + 1, ?_, hq2, hq3, ?_⟩
        · simpa using hq1
        · rw [← hcaps, hq4]
          rfl

/-- Characterization of a successful candidate scan of the fallback
pass: it allocates at a candidate position whose record has known
coordinates on both sides, distance at most 200 km, and room for the
block, decrementing exactly that record. -/
theorem phase2Scan_spec (coords : PyStr → Option (ℚ × ℚ)) (hav : ℚ × ℚ → ℚ × ℚ → ℚ)
    (b : Block) (caps : List TrailerCap) :
    ∀ (cand : List ℕ) (t : TrailerCap) (p : ℕ) (caps2 : List TrailerCap),
      phase2Scan coords hav b caps cand = some (t, p, caps2) →
      caps.get? p = some t ∧
        (∃ ca cb, coords t.base_city = some ca ∧ coords b.base = some cb ∧
          hav ca cb ≤ 200) ∧
        b.ceu ≤ t.restante ∧
        caps2 = caps.set p { t with restante := t.restante - b.ceu } := by
  intro cand
  induction cand with
  | nil => intro t p caps2 h; simp [phase2Scan] at h
  | cons q qs ih =>
    intro t p caps2 h
    unfold phase2Scan at h
    cases hq : caps.get? q with
    | none => rw [hq] at h; exact ih t p caps2 h
    | some u =>
      rw [hq] at h
      dsimp only at h
      cases hca : coords u.base_city with
      | none => rw [hca] at h; exact ih t p caps2 h
      | some ca =>
        rw [hca] at h
        cases hcb : coords b.base with
        | none =>
            rw [hcb] at h
            have hres := ih t p caps2 h
            rwa [hcb] at hres
        | some cb =>
          rw [hcb] at h
          dsimp only at h
          by_cases hdist : 200 < hav ca cb
          · rw [if_pos hdist] at h
            have hres := ih t p caps2 h
            rwa [hcb] at hres
          · rw [if_neg hdist] at h
            by_cases hfit : b.ceu ≤ u.restante
            · rw [if_pos hfit] at h
              simp only [Option.some.injEq, Prod.mk.injEq] at h
              obtain ⟨hut, hqp, hcaps⟩ := h
              subst hut
              subst hqp
              exact ⟨hq, ⟨ca, cb, hca, rfl, le_of_not_lt hdist⟩, hfit, hcaps.symm⟩
            · rw [if_neg hfit] at h
              have hres := ih t p caps2 h
              rwa [hcb] at hres

/-- Fold preservation of a state predicate, restricted to the list's
members. -/
theorem foldl_preserve {α β : Type} (P : α → Prop) (f : α → β → α) :
    ∀ (l : List β) (st : α), (∀ st' a, a ∈ l → P st' → P (f st' a)) → P st →
      P (l.foldl f st) := by
  intro l
  induction l with
  | nil => intro st _ hst; exact hst
  | cons a rest ih =>
    intro st hstep hst
    rw [List.foldl_cons]
    exact ih (f st a) (fun st' x hx h => hstep st' x (by simp [hx]) h)
      (hstep st a (by simp) hst)

/-- Invariant tying the capacity records to the trailer list and the
allocation journals: record `p` belongs to trailer `p`, its `cap` is the
trailer's truncated scaled `ceu_max`, and its `restante` counter is
non-negative and equals `cap` minus the CEU already allocated to it. -/
def capsInv (trailers : List Trailer) (st : SelState) : Prop :=
  st.caps.length = trailers.length ∧
  ∀ (p : ℕ) (tc : TrailerCap), st.caps.get? p = some tc →
    tc.idx = p ∧
    (∃ t : Trailer, trailers.get? p = some t ∧
      tc.cap = subsetSelectionCeuCap t.ceu_max) ∧
    tc.restante = tc.cap - journalCeuSum (st.journal1 ++ st.journal2) p ∧
    0 ≤ tc.restante

/-- Inserting one entry in the middle of the two journals adds its CEU to
exactly its trailer's total. -/
theorem journalCeuSum_middle (j1 j2 : List AllocEntry) (e : AllocEntry) (p : ℕ) :
    journalCeuSum ((j1 ++ [e]) ++ j2) p
      = journalCeuSum (j1 ++ j2) p + (if e.idx = p then e.block.ceu else 0) := by
  unfold journalCeuSum
  by_cases h : e.idx = p
  · simp [List.filter_append, List.filter_cons, h]
    ring
  · simp [List.filter_append, List.filter_cons, h]

/-- One allocation step preserves the capacity invariant: the update
decrements position `q`'s counter by the block's CEU (which fits) and
the combined journal gains one entry for trailer `q`. -/
theorem allocUpdate_inv (trailers : List Trailer) (st : SelState)
    (hinv : capsInv trailers st) (q : ℕ) (t : TrailerCap)
    (hq : st.caps.get? q = some t) (b : Block) (hfit : b.ceu ≤ t.restante)
    (st' : SelState)
    (hcaps : st'.caps = st.caps.set q { t with restante := t.restante - b.ceu })
    (hsum : ∀ p, journalCeuSum (st'.journal1 ++ st'.journal2) p
      = journalCeuSum (st.journal1 ++ st.journal2) p
        + (if t.idx = p then b.ceu else 0)) :
    capsInv trailers st' := by
  obtain ⟨hlen, hrec⟩ := hinv
  have hidxq : t.idx = q := (hrec q t hq).1
  constructor
  · rw [hcaps, List.length_set, hlen]
  · intro p tc hp
    rw [hcaps] at hp
    by_cases hpq : p = q
    · subst hpq
      have hlt : p < st.caps.length := (List.get?_eq_some.mp hq).1
      rw [List.get?_set_eq_of_lt _ hlt] at hp
      have htc : tc = { t with restante := t.restante - b.ceu } :=
        (Option.some.injEq _ _).mp hp.symm
      subst htc
      obtain ⟨hidx, hcapEq, hrest, hnn⟩ := hrec p t hq
      refine ⟨hidx, hcapEq, ?_, by simpa using hfit⟩
      have : t.restante - b.ceu
          = t.cap - (journalCeuSum (st.journal1 ++ st.journal2) p + b.ceu) := by
        rw [hrest]; ring
      rw [hsum p, if_pos hidx]
      simpa using this
    · rw [List.get?_eq_getElem?, List.getElem?_set_ne (by omega),
        ← List.get?_eq_getElem?] at hp
      obtain ⟨hidx, hcapEq, hrest, hnn⟩ := hrec p tc hp
      refine ⟨hidx, hcapEq, ?_, hnn⟩
      rw [hsum p, if_neg (by omega), hrest]
      ring

/-- The truncated scaled capacity of a non-negative `ceu_max` is
non-negative. -/
theorem subsetSelectionCeuCap_nonneg {q : ℚ} (h : 0 ≤ q) :
    0 ≤ subsetSelectionCeuCap q := by
  unfold subsetSelectionCeuCap pyTruncInt
  rw [if_pos (mul_nonneg h (by norm_num))]
  exact Int.floor_nonneg.mpr (mul_nonneg h (by norm_num))

/-- One block of the base pass preserves the capacity invariant. -/
theorem phase1Step_inv (trailers : List Trailer) (base : PyStr) (st : SelState)
    (b : Block) (hinv : capsInv trailers st) :
    capsInv trailers (phase1Step base st b) := by
  unfold phase1Step
  cases htry : tryAllocBase base b.ceu st.caps with
  | none => exact hinv
  | some pr =>
    obtain ⟨t, caps2⟩ := pr
    obtain ⟨q, hq, _, hfit, hset⟩ := tryAllocBase_spec base b.ceu st.caps caps2 t htry
    dsimp only
    refine allocUpdate_inv trailers st hinv q t hq b hfit _ ?_ ?_
    · exact hset
    · intro p
      exact journalCeuSum_middle st.journal1 st.journal2 ⟨t.idx, t.base_city, b⟩ p

/-- One block of the fallback pass preserves the capacity invariant. -/
theorem phase2Step_inv (trailers : List Trailer) (coords : PyStr → Option (ℚ × ℚ))
    (hav : ℚ × ℚ → ℚ × ℚ → ℚ) (candPos : List ℕ) (st : SelState) (b : Block)
    (hinv : capsInv trailers st) :
    capsInv trailers (phase2Step coords hav candPos st b) := by
  unfold phase2Step
  dsimp only
  split
  · exact hinv
  · rename_i t p caps2 hscan
    obtain ⟨hq, _, hfit, hset⟩ :=
      phase2Scan_spec coords hav b st.caps _ t p caps2 hscan
    refine allocUpdate_inv trailers st hinv p t hq b hfit _ ?_ ?_
    · exact hset
    · intro r
      rw [← List.append_assoc]
      exact journalCeuSum_append_entry (st.journal1 ++ st.journal2)
        ⟨t.idx, t.base_city, b⟩ r

/-- The fresh state satisfies the capacity invariant (requires every
`ceu_max` to be non-negative, so that each counter starts at a
non-negative value). -/
theorem capsInv_init (trailers : List Trailer)
    (hcap : ∀ t ∈ trailers, 0 ≤ t.ceu_max) :
    capsInv trailers
      { caps := mkTrailerCaps trailers, usedDfs := [], usedIdxs := [], journal1 := [], journal2 := [] } := by
  constructor
  · unfold mkTrailerCaps
    simp
  · intro p tc hp
    unfold mkTrailerCaps at hp
    rw [List.get?_map, List.enum_get?] at hp
    cases ht : trailers.get? p with
    | none => rw [ht] at hp; simp at hp
    | some t =>
      rw [ht] at hp
      simp only [Option.map_some', Option.some.injEq] at hp
      rw [← hp]
      refine ⟨rfl, ⟨t, rfl, rfl⟩, by simp [journalCeuSum], ?_⟩
      exact subsetSelectionCeuCap_nonneg (hcap t (List.get?_mem ht))

/-- The capacity invariant holds after both allocation passes. -/
theorem selecionarState_capsInv (df : List Row) (trailers : List Trailer)
    (coords : PyStr → Option (ℚ × ℚ)) (hav : ℚ × ℚ → ℚ × ℚ → ℚ)
    (hcap : ∀ t ∈ trailers, 0 ≤ t.ceu_max) :
    capsInv trailers (selecionarState df trailers coords hav) := by
  unfold selecionarState
  dsimp only
  apply foldl_preserve (capsInv trailers) _ _ _
    (fun st' a _ h => phase2Step_inv trailers coords hav _ st' a h)
  apply foldl_preserve (capsInv trailers) _ _ _
    (fun st' base _ h =>
      foldl_preserve (capsInv trailers) _ _ st'
        (fun st'' b _ h' => phase1Step_inv trailers base st'' b h') h)
  exact capsInv_init trailers hcap

/-- Claim C4: for every trailer, the total scaled CEU of the service
blocks the subset selection assigns to it (across both passes) never
exceeds the trailer's truncated scaled `ceu_max`; each assignment is
guarded by `block CEU ≤ restante`, with `restante` starting at the
scaled capacity and decremented on every assignment. -/
theorem C4_trailer_ceu_never_exceeded (df : List Row) (trailers : List Trailer)
    (coords : PyStr → Option (ℚ × ℚ)) (hav : ℚ × ℚ → ℚ × ℚ → ℚ)
    (hcap : ∀ t ∈ trailers, 0 ≤ t.ceu_max)
    (p : ℕ) (t : Trailer) (ht : trailers.get? p = some t) :
    journalCeuSum ((selecionar df trailers coords hav).journal1
        ++ (selecionar df trailers coords hav).journal2) p
      ≤ subsetSelectionCeuCap t.ceu_max := by
  have hcap0 : 0 ≤ subsetSelectionCeuCap t.ceu_max :=
    subsetSelectionCeuCap_nonneg (hcap t (List.get?_mem ht))
  unfold selecionar
  split_ifs with hempty
  · dsimp only
    unfold journalCeuSum
    simpa using hcap0
  · dsimp only
    obtain ⟨hlen, hrec⟩ := selecionarState_capsInv df trailers coords hav hcap
    have hplt : p < (selecionarState df trailers coords hav).caps.length := by
      rw [hlen]
      exact (List.get?_eq_some.mp ht).1
    obtain ⟨tc, htc⟩ : ∃ tc,
        (selecionarState df trailers coords hav).caps.get? p = some tc :=
      ⟨_, List.get?_eq_get hplt⟩
    obtain ⟨hidx, ⟨t2, ht2, hcapEq⟩, hrest, hnn⟩ := hrec p tc htc
    have ht2t : t2 = t := by
      rw [ht] at ht2
      exact ((Option.some.injEq _ _).mp ht2).symm
    rw [← ht2t, ← hcapEq]
    omega

/-- Row and trailer for the concrete subset-selection witnesses. -/
def rowBaseA : Row :=
  { baseRow with
      id := 7,
      service_reg := 7,
      ceu_int := some 10,
      scheduled_base := [65] }

/-- Witness for C4 on a one-row, one-trailer instance (the row's base
matches the trailer's, so the base pass allocates it). -/
theorem C4_trailer_ceu_never_exceeded_witness :
    journalCeuSum ((selecionar [rowBaseA] [trailerA] (fun _ => none)
        (fun _ _ => 0)).journal1
        ++ (selecionar [rowBaseA] [trailerA] (fun _ => none)
        (fun _ _ => 0)).journal2) 0
      ≤ subsetSelectionCeuCap trailerA.ceu_max := by
  refine C4_trailer_ceu_never_exceeded [rowBaseA] [trailerA] (fun _ => none)
    (fun _ _ => 0) ?_ 0 trailerA rfl
  intro t htm
  rw [List.mem_singleton] at htm
  subst htm
  norm_num [trailerA]

/-- Guard property of a fallback allocation: both bases geocoded and at
most 200 km apart under the provided distance function. -/
def fallbackGuardOk (coords : PyStr → Option (ℚ × ℚ)) (hav : ℚ × ℚ → ℚ × ℚ → ℚ)
    (e : AllocEntry) : Prop :=
  ∃ ca cb, coords e.trailerBase = some ca ∧ coords e.block.base = some cb ∧
    hav ca cb ≤ 200

/-- Claim C10: every allocation the fallback pass makes (`journal2`) is
to a trailer whose base and the block's base both have known coordinates
and lie at most 200 km apart; a block failing this guard for every
candidate trailer is left unassigned for the round. -/
theorem C10_fallback_needs_coords_within_200km (df : List Row)
    (trailers : List Trailer) (coords : PyStr → Option (ℚ × ℚ))
    (hav : ℚ × ℚ → ℚ × ℚ → ℚ) :
    ∀ e ∈ (selecionar df trailers coords hav).journal2,
      fallbackGuardOk coords hav e := by
  unfold selecionar
  split_ifs with hempty
  · intro e he
    simp at he
  · dsimp only
    unfold selecionarState
    dsimp only
    refine foldl_preserve (fun st : SelState => ∀ e ∈ st.journal2, fallbackGuardOk coords hav e)
      _ _ _ ?fb ?ph1
    case fb =>
      intro st b _ hst
      unfold phase2Step
      dsimp only
      split
      · exact hst
      · rename_i t p caps2 hscan
        obtain ⟨_, ⟨ca, cb, hca, hcb, hle⟩, _, _⟩ :=
          phase2Scan_spec coords hav b st.caps _ t p caps2 hscan
        intro e he
        rw [List.mem_append] at he
        rcases he with he | he
        · exact hst e he
        · rw [List.mem_singleton] at he
          subst he
          exact ⟨ca, cb, hca, hcb, hle⟩
    case ph1 =>
      refine foldl_preserve
        (fun st : SelState => ∀ e ∈ st.journal2, fallbackGuardOk coords hav e) _ _ _ ?step ?init
      case step =>
        intro st base _ hst
        refine foldl_preserve
          (fun st : SelState => ∀ e ∈ st.journal2, fallbackGuardOk coords hav e) _ _ _ ?inner hst
        case inner =>
          intro st' b _ hst'
          unfold phase1Step
          cases tryAllocBase base b.ceu st'.caps with
          | none => exact hst'
          | some pr => exact fun e he => hst' e he
      case init =>
        intro e he
        simp at he

/-- Geography for the concrete fallback witness: every city geocoded at
the origin, all distances zero. -/
def coordsZero : PyStr → Option (ℚ × ℚ) := fun _ => some (0, 0)

/-- Zero distance function for the concrete fallback witness. -/
def havZero : ℚ × ℚ → ℚ × ℚ → ℚ := fun _ _ => 0

/-- Row whose base (city `B`) has no trailer, forcing the fallback
pass. -/
def rowBaseB : Row :=
  { baseRow with
      id := 9,
      service_reg := 9,
      ceu_int := some 10,
      scheduled_base := [66] }

/-- The service block the selection builds from `rowBaseB`. -/
def blockB : Block :=
  { service_reg := 9, rows := [rowBaseB],
    ceu := 10, base := [66] }

/-- Witness for C10: on a one-row instance whose base differs from the
only trailer's base, the fallback pass allocates the block to that
trailer, and the theorem yields the coordinate and distance guards. -/
theorem C10_fallback_needs_coords_within_200km_witness :
    fallbackGuardOk coordsZero havZero ⟨0, [65], blockB⟩ :=
  C10_fallback_needs_coords_within_200km [rowBaseB] [trailerA] coordsZero havZero
    ⟨0, [65], blockB⟩ (by with_unfolding_all decide)

/-! ## Claim C3 — no service key is used by two rounds -/

/-- Elements of the first-appearance deduplication come from the list. -/
theorem uniqueFirst_subset [DecidableEq α] :
    ∀ (seen l : List α) (a : α), a ∈ uniqueFirst.go seen l → a ∈ l := by
  intro seen l
  induction l generalizing seen with
  | nil => intro a ha; simp [uniqueFirst.go] at ha
  | cons b t ih =>
    intro a ha
    unfold uniqueFirst.go at ha
    by_cases hb : b ∈ seen
    · rw [if_pos hb] at ha
      exact List.mem_cons_of_mem b (ih seen a ha)
    · rw [if_neg hb] at ha
      rcases List.mem_cons.mp ha with rfl | ha
      · exact List.mem_cons_self a t
      · exact List.mem_cons_of_mem b (ih (b :: seen) a ha)

/-- Every row of a block built by the grouping is a row of the input
DataFrame. -/
theorem mkBlocks_rows_sub (df : List Row) :
    ∀ b ∈ mkBlocks df, ∀ r ∈ b.rows, r ∈ df := by
  intro b hb r hr
  unfold mkBlocks at hb
  obtain ⟨k, _, hk⟩ := List.mem_map.mp hb
  rw [← hk] at hr
  dsimp only at hr
  exact List.mem_of_mem_filter hr

/-- Every row of a block after the demand sort is a row of the input
DataFrame. -/
theorem sortedServiceBlocks_rows_sub (df : List Row) :
    ∀ b ∈ sortedServiceBlocks df, ∀ r ∈ b.rows, r ∈ df := by
  intro b hb
  unfold sortedServiceBlocks at hb
  exact mkBlocks_rows_sub df b ((List.mem_insertionSort _).mp hb)

/-- Every row of `df_usado` is a row of the input DataFrame. -/
theorem selecionar_dfUsado_sub (df : List Row) (trailers : List Trailer)
    (coords : PyStr → Option (ℚ × ℚ)) (hav : ℚ × ℚ → ℚ × ℚ → ℚ) :
    ∀ r ∈ (selecionar df trailers coords hav).dfUsado, r ∈ df := by
  unfold selecionar
  split_ifs with hempty
  · exact fun r hr => hr
  · dsimp only
    suffices h : ∀ l ∈ (selecionarState df trailers coords hav).usedDfs,
        ∀ r ∈ l, r ∈ df by
      intro r hr
      rw [List.mem_flatten] at hr
      obtain ⟨l, hl, hr⟩ := hr
      exact h l hl r hr
    unfold selecionarState
    dsimp only
    refine foldl_preserve (fun st : SelState => ∀ l ∈ st.usedDfs, ∀ r ∈ l, r ∈ df)
      _ _ _ ?fb ?p1
    case fb =>
      intro st b hb hst
      unfold phase2Step
      dsimp only
      split
      · exact hst
      · intro l hl
        rw [List.mem_append] at hl
        rcases hl with hl | hl
        · exact hst l hl
        · rw [List.mem_singleton] at hl
          subst hl
          exact sortedServiceBlocks_rows_sub df b (List.mem_of_mem_filter hb)
    case p1 =>
      refine foldl_preserve (fun st : SelState => ∀ l ∈ st.usedDfs, ∀ r ∈ l, r ∈ df)
        _ _ _ ?outer ?init
      case outer =>
        intro st base _ hst
        refine foldl_preserve (fun st : SelState => ∀ l ∈ st.usedDfs, ∀ r ∈ l, r ∈ df)
          _ _ _ ?inner hst
        case inner =>
          intro st' b hb hst'
          unfold phase1Step
          cases tryAllocBase base b.ceu st'.caps with
          | none => exact hst'
          | some pr =>
            intro l hl
            rw [List.mem_append] at hl
            rcases hl with hl | hl
            · exact hst' l hl
            · rw [List.mem_singleton] at hl
              subst hl
              exact sortedServiceBlocks_rows_sub df b (List.mem_of_mem_filter hb)
      case init =>
        intro l hl
        simp at hl

/-- Disjointness of the per-round "used" key lists. -/
def usedKeysDisjoint (a b : ℕ × List ℕ) : Prop := ∀ k, k ∈ a.2 → ¬ k ∈ b.2

/-- Loop invariant of `optimize`: the recorded rounds are pairwise
disjoint and all their keys are in `services_alocados`. -/
def RoundsInv (st : OptState) : Prop :=
  List.Pairwise usedKeysDisjoint st.results ∧
    ∀ pr ∈ st.results, ∀ k ∈ pr.2, k ∈ st.allocated

/-- One round preserves the loop invariant: a successful round's "used"
keys come from the cluster filtered by `services_alocados`, so they are
disjoint from every earlier round's keys, and they are added to
`services_alocados`. -/
theorem optimizeRound_inv (coords : PyStr → Option (ℚ × ℚ))
    (hav : ℚ × ℚ → ℚ × ℚ → ℚ) (solveOk : ℕ → Bool) (rc : ℕ × List Row)
    (st : OptState) (h : RoundsInv st) :
    RoundsInv (optimizeRound coords hav solveOk st rc) := by
  unfold optimizeRound
  dsimp only
  split_ifs with h1 h2 h3
  any_goals exact h
  · set dfRest := rc.2.filter (fun r => ¬ r.service_reg ∈ st.allocated) with hdfRest
    set used := uniqueFirst
      ((selecionar dfRest st.trailersRem coords hav).dfUsado.map Row.service_reg)
      with hused
    have hnotall : ∀ k ∈ used, ¬ k ∈ st.allocated := by
      intro k hk
      rw [hused] at hk
      have hk2 := uniqueFirst_subset [] _ k hk
      obtain ⟨r, hr, hrk⟩ := List.mem_map.mp hk2
      have hrdf : r ∈ dfRest :=
        selecionar_dfUsado_sub dfRest st.trailersRem coords hav r hr
      rw [hdfRest] at hrdf
      have := (List.mem_filter.mp hrdf).2
      simp only [decide_not, Bool.not_eq_true', decide_eq_false_iff_not] at this
      rw [← hrk]
      exact this
    constructor
    · dsimp only
      rw [List.pairwise_append]
      refine ⟨h.1, by simp, ?_⟩
      intro a ha b hb
      rw [List.mem_singleton] at hb
      subst hb
      intro k hk hk2
      exact hnotall k hk2 (h.2 a ha k hk)
    · intro pr hpr k hk
      dsimp only at hpr ⊢
      rw [List.mem_append] at hpr
      rcases hpr with hpr | hpr
      · exact List.mem_append.mpr (Or.inl (h.2 pr hpr k hk))
      · rw [List.mem_singleton] at hpr
        subst hpr
        exact List.mem_append.mpr (Or.inr hk)

/-- Claim C3: across the sequential rounds of one `optimize` run, the
"used" key sets of the successfully solved rounds are pairwise disjoint —
once a round allocates a `service_reg`, every later round's candidate
set excludes it, so no logical service is assigned in two rounds. -/
theorem C3_no_service_key_in_two_rounds (clusters : List (List Row))
    (trailers : List Trailer) (coords : PyStr → Option (ℚ × ℚ))
    (hav : ℚ × ℚ → ℚ × ℚ → ℚ) (solveOk : ℕ → Bool) :
    List.Pairwise usedKeysDisjoint
      (optimizeRounds clusters trailers coords hav solveOk) :=
  (foldl_preserve RoundsInv (optimizeRound coords hav solveOk)
    (clusters.enumFrom 1) { allocated := [], trailersRem := trailers, results := [] }
    (fun st a _ hst => optimizeRound_inv coords hav solveOk a st hst)
    ⟨List.Pairwise.nil, by simp⟩).1
